import Mathlib

/-!
Verification of the filling-line scheduler (filling_schedule_optimizer).

Shallow embedding conventions:
* Absolute timestamps (Python `datetime`) are rational numbers of minutes since the
  schedule start epoch; `timedelta(hours = h)` is `h * 60` minutes and
  `timedelta(minutes = m)` is `m` minutes, so all datetime arithmetic is exact.
* Durations are rationals (`duration_minutes`).
* Python's `sorted` / `list.sort` with a key is a stable sort ascending by the key;
  it is embedded as `List.insertionSort` with the relation `key a ≤ key b`, which is
  the (unique) stable sort for that key.
* Python `x / y` on numbers raises `ZeroDivisionError` when `y == 0`; code paths that
  divide are embedded twice: a total version (used under the hypothesis that the
  divisor is nonzero) and an `Except`-valued version (`pyDiv`) used for the
  error-behaviour claims.
-/

namespace FillingScheduler

/-- Model of `models.Lot` (`id`, `type`, `vials`); `description` is never read by any
strategy and is omitted. `vials` is a Python int. -/
structure Lot where
  id : String
  type : String
  vials : ℤ
deriving DecidableEq

/-- Model of the configuration constants in `config.py` that the strategies read. -/
structure Config where
  FILLING_RATE_VIALS_PER_MIN : ℚ
  CHANGEOVER_SAME_TYPE_HOURS : ℚ
  CHANGEOVER_DIFF_TYPE_HOURS : ℚ
  RECLEAN_CYCLE_HOURS : ℚ
  MAX_CONTINUOUS_RUN_HOURS : ℚ
  BATCH_BINPACK_CLEAN_WINDOW_HOURS : ℚ
  BATCH_BINPACK_SMALL_LOT_THRESHOLD : ℚ
deriving DecidableEq

/-- Model of `models.ScheduleEntry`.  `event_type` is one of the strings
`"fill"`, `"changeover"`, `"reclean"` exactly as in the source; times are minutes
since the epoch.  `duration_minutes` is always assigned by every constructor in the
source, so it is modelled as a plain rational (the source's `or 0` reads are then
the identity). -/
structure ScheduleEntry where
  event_type : String
  lot_id : Option String
  lot_type : Option String
  start_time : ℚ
  end_time : ℚ
  duration_minutes : ℚ
  notes : Option String
deriving DecidableEq

instance : Inhabited ScheduleEntry :=
  ⟨⟨("reclean"), none, none, 0, 0, 0, none⟩⟩

/-- The metrics dictionary returned by every strategy; field names map to the keys
`Total Time (min)`, `Total Changeover Time (min)`, `Total Reclean Time (min)`,
`Total Fill Time (min)`. -/
structure Metrics where
  total_time : ℚ
  total_changeover : ℚ
  total_reclean : ℚ
  total_fill : ℚ
deriving DecidableEq

/-- Python division: raises `ZeroDivisionError` on a zero divisor. -/
inductive PyError where
  | zeroDivisionError : PyError
  | configurationError : PyError
  | invalidInput : PyError
deriving DecidableEq

/-- Checked division, the failure behaviour of Python `a / b`. -/
def pyDiv (a b : ℚ) : Except PyError ℚ :=
  if b = 0 then Except.error PyError.zeroDivisionError else Except.ok (a / b)

/-- Fill duration in minutes, `lot.vials / config.FILLING_RATE_VIALS_PER_MIN`
(total version; every use is guarded by a nonzero-rate hypothesis or by the
`Except` pipeline). -/
def fill_minutes (cfg : Config) (lot : Lot) : ℚ :=
  (lot.vials : ℚ) / cfg.FILLING_RATE_VIALS_PER_MIN

/-- A reclean entry appended at time `t` (duration `RECLEAN_CYCLE_HOURS` hours). -/
def recleanEntry (cfg : Config) (t : ℚ) (note : String) : ScheduleEntry :=
  { event_type := ("reclean"), lot_id := none, lot_type := none,
    start_time := t, end_time := t + cfg.RECLEAN_CYCLE_HOURS * 60,
    duration_minutes := cfg.RECLEAN_CYCLE_HOURS * 60, notes := some note }

/-- A changeover entry to type `ty` of `co` hours appended at time `t`. -/
def changeoverEntry (t : ℚ) (ty : String) (co : ℚ) : ScheduleEntry :=
  { event_type := ("changeover"), lot_id := none, lot_type := some ty,
    start_time := t, end_time := t + co * 60,
    duration_minutes := co * 60, notes := some (("Changeover to ") ++ ty) }

/-- A fill entry for `lot` of `fm` minutes appended at time `t`. -/
def fillEntryAt (t : ℚ) (lot : Lot) (fm : ℚ) : ScheduleEntry :=
  { event_type := ("fill"), lot_id := some lot.id, lot_type := some lot.type,
    start_time := t, end_time := t + fm,
    duration_minutes := fm, notes := some (("Filling lot ") ++ lot.id) }

/-- The mutable loop variables shared by the FIFO / SPT / Hybrid loops:
`current_time`, `last_type`, `hours_since_reclean`, `total_changeover`,
`total_reclean`, `run_time`. -/
structure LoopState where
  time : ℚ
  last_type : Option String
  hours_since_reclean : ℚ
  total_changeover : ℚ
  total_reclean : ℚ
  run_time : ℚ
deriving DecidableEq

instance : Inhabited LoopState := ⟨⟨0, none, 0, 0, 0, 0⟩⟩

/-- State at the top of each strategy loop: the initial reclean has been emitted and
the cursor advanced past it. -/
def initState (cfg : Config) (now : ℚ) : LoopState :=
  { time := now + cfg.RECLEAN_CYCLE_HOURS * 60, last_type := none,
    hours_since_reclean := 0, total_changeover := 0, total_reclean := 0, run_time := 0 }

/-- Run a per-iteration step over a list, collecting the entries appended by each
iteration (one inner list per processed item) and the final loop state. -/
def runSteps {σ α : Type} (step : σ → α → List ScheduleEntry × σ) :
    σ → List α → List (List ScheduleEntry) × σ
  | st, [] => ([], st)
  | st, x :: xs =>
    let p := step st x
    let q := runSteps step p.2 xs
    (p.1 :: q.1, q.2)

/-- The loop states seen at the top of each iteration, plus the final state. -/
def allStates {σ α : Type} (step : σ → α → List ScheduleEntry × σ) :
    σ → List α → List σ
  | st, [] => [st]
  | st, x :: xs => st :: allStates step (step st x).2 xs

/-- Python `enumerate` starting at `i`. -/
def enumFrom {α : Type} (i : ℕ) : List α → List (ℕ × α)
  | [] => []
  | x :: xs => (i, x) :: enumFrom (i + 1) xs

/-- Python `enumerate(lots)`. -/
def pyEnum {α : Type} (l : List α) : List (ℕ × α) := enumFrom 0 l

/-- Build the metrics dictionary of the FIFO / SPT / Hybrid strategies from the final
loop state (`total_time = (current_time - now)` in minutes). -/
def loopMetrics (now : ℚ) (st : LoopState) : Metrics :=
  { total_time := st.time - now, total_changeover := st.total_changeover,
    total_reclean := st.total_reclean, total_fill := st.run_time }

namespace Fifo

/-- One iteration of the `fifo.generate_schedule` loop body (source lines 37-84):
optionally a mid-run reclean (skipped for the first and for the last lot), then a
changeover when there is a previous lot, then the fill. -/
def row (cfg : Config) (n : ℕ) (st : LoopState) (x : ℕ × Lot) :
    List ScheduleEntry × LoopState :=
  let i := x.1
  let lot := x.2
  let p1 :=
    if cfg.MAX_CONTINUOUS_RUN_HOURS ≤ st.hours_since_reclean ∧ i < n - 1 ∧ i ≠ 0 then
      ([recleanEntry cfg st.time ("Line reclean")],
       { st with time := st.time + cfg.RECLEAN_CYCLE_HOURS * 60,
                 total_reclean := st.total_reclean + cfg.RECLEAN_CYCLE_HOURS * 60,
                 hours_since_reclean := 0 })
    else ([], st)
  let st1 := p1.2
  let p2 :=
    match st1.last_type with
    | none => (([] : List ScheduleEntry), st1)
    | some t =>
      let co := if lot.type = t then cfg.CHANGEOVER_SAME_TYPE_HOURS
                else cfg.CHANGEOVER_DIFF_TYPE_HOURS
      ([changeoverEntry st1.time lot.type co],
       { st1 with time := st1.time + co * 60,
                  total_changeover := st1.total_changeover + co * 60,
                  hours_since_reclean := st1.hours_since_reclean + co })
  let st2 := p2.2
  let fm := fill_minutes cfg lot
  (p1.1 ++ p2.1 ++ [fillEntryAt st2.time lot fm],
   { st2 with time := st2.time + fm, run_time := st2.run_time + fm,
              hours_since_reclean := st2.hours_since_reclean + fm / 60,
              last_type := some lot.type })

/-- The per-lot rows of the FIFO loop together with the final state. -/
def rows (cfg : Config) (now : ℚ) (lots : List Lot) :
    List (List ScheduleEntry) × LoopState :=
  runSteps (row cfg lots.length) (initState cfg now) (pyEnum lots)

/-- The loop states of the FIFO loop (state before each lot, then the final state). -/
def states (cfg : Config) (now : ℚ) (lots : List Lot) : List LoopState :=
  allStates (row cfg lots.length) (initState cfg now) (pyEnum lots)

/-- `fifo.generate_schedule`: initial reclean, then the loop, then the metrics. -/
def generate_schedule (cfg : Config) (now : ℚ) (lots : List Lot) :
    List ScheduleEntry × Metrics :=
  let r := rows cfg now lots
  (recleanEntry cfg now ("Initial line reclean") :: r.1.flatten, loopMetrics now r.2)

end Fifo

namespace Spt

/-- The sort in `spt_only.generate_schedule` line 14: Python's stable `sorted` with
key `lot.vials / config.FILLING_RATE_VIALS_PER_MIN`. -/
def lots_sorted (cfg : Config) (lots : List Lot) : List Lot :=
  List.insertionSort (fun a b => fill_minutes cfg a ≤ fill_minutes cfg b) lots

/-- One iteration of the `spt_only.generate_schedule` loop body (source lines 37-83):
a reclean when `i == 0` or the continuous-run counter reached the limit, then a
changeover when there is a previous lot, then the fill. -/
def row (cfg : Config) (st : LoopState) (x : ℕ × Lot) :
    List ScheduleEntry × LoopState :=
  let i := x.1
  let lot := x.2
  let p1 :=
    if i = 0 ∨ cfg.MAX_CONTINUOUS_RUN_HOURS ≤ st.hours_since_reclean then
      ([recleanEntry cfg st.time ("Line reclean")],
       { st with time := st.time + cfg.RECLEAN_CYCLE_HOURS * 60,
                 total_reclean := st.total_reclean + cfg.RECLEAN_CYCLE_HOURS * 60,
                 hours_since_reclean := 0 })
    else ([], st)
  let st1 := p1.2
  let p2 :=
    match st1.last_type with
    | none => (([] : List ScheduleEntry), st1)
    | some t =>
      let co := if lot.type = t then cfg.CHANGEOVER_SAME_TYPE_HOURS
                else cfg.CHANGEOVER_DIFF_TYPE_HOURS
      ([changeoverEntry st1.time lot.type co],
       { st1 with time := st1.time + co * 60,
                  total_changeover := st1.total_changeover + co * 60,
                  hours_since_reclean := st1.hours_since_reclean + co })
  let st2 := p2.2
  let fm := fill_minutes cfg lot
  (p1.1 ++ p2.1 ++ [fillEntryAt st2.time lot fm],
   { st2 with time := st2.time + fm, run_time := st2.run_time + fm,
              hours_since_reclean := st2.hours_since_reclean + fm / 60,
              last_type := some lot.type })

/-- The per-lot rows of the SPT loop together with the final state. -/
def rows (cfg : Config) (now : ℚ) (lots : List Lot) :
    List (List ScheduleEntry) × LoopState :=
  runSteps (row cfg) (initState cfg now) (pyEnum (lots_sorted cfg lots))

/-- The loop states of the SPT loop. -/
def states (cfg : Config) (now : ℚ) (lots : List Lot) : List LoopState :=
  allStates (row cfg) (initState cfg now) (pyEnum (lots_sorted cfg lots))

/-- `spt_only.generate_schedule`. -/
def generate_schedule (cfg : Config) (now : ℚ) (lots : List Lot) :
    List ScheduleEntry × Metrics :=
  let r := rows cfg now lots
  (recleanEntry cfg now ("Initial line reclean") :: r.1.flatten, loopMetrics now r.2)

end Spt

namespace Hybrid

/-- Append a lot to its type's group, preserving first-encounter order of the keys
(model of the `defaultdict` build in `hybrid_heuristic.generate_schedule` lines
14-17; Python dicts iterate in key-insertion order). -/
def addLotToGroups : List (String × List Lot) → Lot → List (String × List Lot)
  | [], lot => [(lot.type, [lot])]
  | (t, ls) :: gs, lot =>
    if lot.type = t then (t, ls ++ [lot]) :: gs else (t, ls) :: addLotToGroups gs lot

/-- Group the lots by `type` in encounter order. -/
def groupByType (lots : List Lot) : List (String × List Lot) :=
  lots.foldl addLotToGroups []

/-- Total vials of a group (the group-ordering key, lines 23-24). -/
def sumVials (ls : List Lot) : ℤ := (ls.map Lot.vials).sum

/-- The groups of the hybrid strategy: grouped by type in encounter order, each group
stably sorted ascending by fill time (line 21), the group list stably sorted by
descending total vials (line 24, Python key `-sum(vials)`). -/
def hybrid_groups (cfg : Config) (lots : List Lot) : List (String × List Lot) :=
  let gs := (groupByType lots).map
    (fun g => (g.1, List.insertionSort (fun a b => fill_minutes cfg a ≤ fill_minutes cfg b) g.2))
  List.insertionSort (fun g1 g2 => -(sumVials g1.2) ≤ -(sumVials g2.2)) gs

/-- One planned lot of the hybrid strategy: the lot, whether it is the very first
processed lot (`group_idx == 0 and i == 0`) and whether it is the first lot of its
group (`i == 0`). -/
structure PlanItem where
  lot : Lot
  veryFirst : Bool
  groupHead : Bool
deriving DecidableEq

/-- The hybrid processing order: the groups flattened, each lot tagged with its
position flags. -/
def plan (cfg : Config) (lots : List Lot) : List PlanItem :=
  ((pyEnum (hybrid_groups cfg lots)).map
    (fun gi => (pyEnum gi.2.2).map
      (fun il => PlanItem.mk il.2 (gi.1 = 0 ∧ il.1 = 0 : Bool) (il.1 = 0 : Bool)))).flatten

/-- One iteration of the `hybrid_heuristic.generate_schedule` inner loop body
(source lines 50-95): a reclean when the item is the very first lot or the counter
reached the limit; a changeover before every lot but the very first, different-type
cost at a group boundary and same-type cost inside a group; then the fill. -/
def row (cfg : Config) (st : LoopState) (item : PlanItem) :
    List ScheduleEntry × LoopState :=
  let p1 :=
    if item.veryFirst = true ∨ cfg.MAX_CONTINUOUS_RUN_HOURS ≤ st.hours_since_reclean then
      ([recleanEntry cfg st.time ("Line reclean")],
       { st with time := st.time + cfg.RECLEAN_CYCLE_HOURS * 60,
                 total_reclean := st.total_reclean + cfg.RECLEAN_CYCLE_HOURS * 60,
                 hours_since_reclean := 0 })
    else ([], st)
  let st1 := p1.2
  let p2 :=
    if item.veryFirst = true then (([] : List ScheduleEntry), st1)
    else
      let co := if item.groupHead = true then cfg.CHANGEOVER_DIFF_TYPE_HOURS
                else cfg.CHANGEOVER_SAME_TYPE_HOURS
      ([changeoverEntry st1.time item.lot.type co],
       { st1 with time := st1.time + co * 60,
                  total_changeover := st1.total_changeover + co * 60,
                  hours_since_reclean := st1.hours_since_reclean + co })
  let st2 := p2.2
  let fm := fill_minutes cfg item.lot
  (p1.1 ++ p2.1 ++ [fillEntryAt st2.time item.lot fm],
   { st2 with time := st2.time + fm, run_time := st2.run_time + fm,
              hours_since_reclean := st2.hours_since_reclean + fm / 60 })

/-- The per-lot rows of the hybrid loop together with the final state. -/
def rows (cfg : Config) (now : ℚ) (lots : List Lot) :
    List (List ScheduleEntry) × LoopState :=
  runSteps (row cfg) (initState cfg now) (plan cfg lots)

/-- The loop states of the hybrid loop. -/
def states (cfg : Config) (now : ℚ) (lots : List Lot) : List LoopState :=
  allStates (row cfg) (initState cfg now) (plan cfg lots)

/-- `hybrid_heuristic.generate_schedule`. -/
def generate_schedule (cfg : Config) (now : ℚ) (lots : List Lot) :
    List ScheduleEntry × Metrics :=
  let r := rows cfg now lots
  (recleanEntry cfg now ("Initial line reclean") :: r.1.flatten, loopMetrics now r.2)

end Hybrid

namespace Binpack

/-- `batch_binpack.calculate_fill_time` (minutes); raises on a zero filling rate. -/
def calculate_fill_time (cfg : Config) (lot : Lot) : Except PyError ℚ :=
  pyDiv (lot.vials : ℚ) cfg.FILLING_RATE_VIALS_PER_MIN

/-- `batch_binpack.calculate_changeover` (hours). -/
def calculate_changeover (cfg : Config) (prev : Option Lot) (lot : Lot) : ℚ :=
  match prev with
  | none => 0
  | some p =>
    if p.type = lot.type then cfg.CHANGEOVER_SAME_TYPE_HOURS
    else cfg.CHANGEOVER_DIFF_TYPE_HOURS

/-- The inner `while i < len(lots_of_type)` scan of one type-group (source lines
59-69): admit each lot whose fill plus changeover still fits in the window
(removing it), skip the others; returns the admitted `(lot, changeover_hours)`
pairs in scan order, the skipped lots in order, and the updated window time and
previous lot. -/
def admitFromGroup (cfg : Config) (limit : ℚ) :
    ℚ → Option Lot → List Lot →
    Except PyError (List (Lot × ℚ) × List Lot × ℚ × Option Lot)
  | t, prev, [] => Except.ok ([], [], t, prev)
  | t, prev, lot :: rest =>
    match calculate_fill_time cfg lot with
    | Except.error e => Except.error e
    | Except.ok fm =>
      let fill_time := fm / 60
      let changeover_time := calculate_changeover cfg prev lot
      if t + fill_time + changeover_time ≤ limit then
        match admitFromGroup cfg limit (t + fill_time + changeover_time) (some lot) rest with
        | Except.error e => Except.error e
        | Except.ok (adm, rem, t2, p2) => Except.ok ((lot, changeover_time) :: adm, rem, t2, p2)
      else
        match admitFromGroup cfg limit t prev rest with
        | Except.error e => Except.error e
        | Except.ok (adm, rem, t2, p2) => Except.ok (adm, lot :: rem, t2, p2)

/-- The `for t in list(grouped.keys())` pass filling one clean window (source lines
56-71): scan every group in order, thread the window time and previous lot, delete
groups that became empty. -/
def packWindow (cfg : Config) (limit : ℚ) :
    ℚ → Option Lot → List (String × List Lot) →
    Except PyError (List (Lot × ℚ) × List (String × List Lot))
  | _, _, [] => Except.ok ([], [])
  | t, prev, (ty, ls) :: gs =>
    match admitFromGroup cfg limit t prev ls with
    | Except.error e => Except.error e
    | Except.ok (adm, rem, t2, p2) =>
      match packWindow cfg limit t2 p2 gs with
      | Except.error e => Except.error e
      | Except.ok (admRest, gs2) =>
        Except.ok (adm ++ admRest, if rem.isEmpty then gs2 else (ty, rem) :: gs2)

/-- Python truthiness of an optional string. -/
def truthyS : Option String → Bool
  | none => false
  | some s => s ≠ ""

/-- Emit the entries of one packed window (source lines 73-107).  `sched0` is the
schedule accumulated so far, read only for the `schedule[-1]` carry-over check of
the window's first lot (`prev_lot = schedule[-1].lot_id and schedule[-1].lot_type`);
for every later lot a changeover entry is emitted when its changeover is positive;
every lot then gets a fill entry. -/
def emitWindow (cfg : Config) (sched0 : List ScheduleEntry) :
    ℕ → ℚ → List (Lot × ℚ) → Except PyError (List ScheduleEntry × ℚ)
  | _, t, [] => Except.ok ([], t)
  | idx, t, (lot, changeover_time) :: rest =>
    let p1 :=
      if idx = 0 ∧ sched0 ≠ [] then
        match sched0.getLast? with
        | none => (([] : List ScheduleEntry), t)
        | some last =>
          if truthyS last.lot_id ∧ truthyS last.lot_type ∧
              lot.type ≠ last.lot_type.getD ("") then
            ([changeoverEntry t lot.type changeover_time], t + changeover_time * 60)
          else ([], t)
      else if 0 < changeover_time then
        ([changeoverEntry t lot.type changeover_time], t + changeover_time * 60)
      else ([], t)
    match calculate_fill_time cfg lot with
    | Except.error e => Except.error e
    | Except.ok fm =>
      match emitWindow cfg sched0 (idx + 1) (p1.2 + fm) rest with
      | Except.error e => Except.error e
      | Except.ok (es, t2) => Except.ok (p1.1 ++ fillEntryAt p1.2 lot fm :: es, t2)

/-- Python `any(grouped.values())`. -/
def hasLots (grouped : List (String × List Lot)) : Bool :=
  grouped.any (fun g => ¬ g.2.isEmpty)

/-- The `while any(grouped.values())` window loop (source lines 51-117), with fuel.
Every productive window removes at least one lot, so `lots.length` windows suffice
whenever Python terminates; on inputs where no remaining lot alone fits in an empty
window Python loops forever and the fuel cutoff returns the partial schedule
instead. -/
def packLoop (cfg : Config) :
    ℕ → List ScheduleEntry → ℚ → List (String × List Lot) →
    Except PyError (List ScheduleEntry × ℚ)
  | fuel, sched, t, grouped =>
    if hasLots grouped then
      match fuel with
      | 0 => Except.ok (sched, t)
      | fuel + 1 =>
        match packWindow cfg cfg.BATCH_BINPACK_CLEAN_WINDOW_HOURS 0 none grouped with
        | Except.error e => Except.error e
        | Except.ok (win, grouped2) =>
          match emitWindow cfg sched 0 t win with
          | Except.error e => Except.error e
          | Except.ok (es, t2) =>
            let sched2 := sched ++ es
            if hasLots grouped2 then
              packLoop cfg fuel (sched2 ++ [recleanEntry cfg t2 ("Line reclean")])
                (t2 + cfg.RECLEAN_CYCLE_HOURS * 60) grouped2
            else Except.ok (sched2, t2)
    else Except.ok (sched, t)

/-- The local-search objective (source lines 119-124):
`makespan + total_changeover_time + total_reclean_time`, computed from the stored
entry fields of the current schedule list. -/
def objective (sched : List ScheduleEntry) : ℚ :=
  let makespan :=
    match sched.getLast?, sched.head? with
    | some l, some h => l.end_time - h.start_time
    | _, _ => 0
  let changeover :=
    ((sched.filter (fun e => e.event_type = ("changeover"))).map
      ScheduleEntry.duration_minutes).sum
  let reclean :=
    ((sched.filter (fun e => e.event_type = ("reclean"))).map
      ScheduleEntry.duration_minutes).sum
  makespan + changeover + reclean

/-- Indices of the fill entries (source line 127). -/
def fillIndices (sched : List ScheduleEntry) : List ℕ :=
  ((pyEnum sched).filter (fun p => p.2.event_type = ("fill"))).map Prod.fst

/-- Adjacent pairs of a list. -/
def adjPairs {α : Type} : List α → List (α × α)
  | [] => []
  | [_] => []
  | a :: b :: r => (a, b) :: adjPairs (b :: r)

/-- Swap the entries at positions `i` and `j` (both reads from the original list, as
in the Python tuple assignment). -/
def swapEntries (sched : List ScheduleEntry) (i j : ℕ) : List ScheduleEntry :=
  (sched.set i (sched.getD j default)).set j (sched.getD i default)

/-- One pass of the local search (source lines 129-142): scan adjacent fill pairs
left to right and return the first swap that strictly reduces the objective. -/
def findImprovingSwap (sched : List ScheduleEntry) : Option (List ScheduleEntry) :=
  (adjPairs (fillIndices sched)).findSome? (fun ij =>
    let s2 := swapEntries sched ij.1 ij.2
    if objective s2 < objective sched then some s2 else none)

/-- The `while improved` hill-climbing loop, with fuel.  Each accepted swap strictly
decreases the objective over the finitely many permutations of the entry list, so
`(length)!` steps always reach quiescence. -/
def localSearch : ℕ → List ScheduleEntry → List ScheduleEntry
  | 0, sched => sched
  | fuel + 1, sched =>
    match findImprovingSwap sched with
    | none => sched
    | some s2 => localSearch fuel s2

/-- Collect the maximal run of fills immediately after a changeover whose type
matches the changeover's destination and whose duration is at most
`BATCH_BINPACK_SMALL_LOT_THRESHOLD / FILLING_RATE_VIALS_PER_MIN` (source lines
152-157; the division is evaluated lazily, only once the first two conjuncts
hold).  Returns the run and the remaining suffix. -/
def smallRunSplit (cfg : Config) (ty : Option String) :
    List ScheduleEntry → Except PyError (List ScheduleEntry × List ScheduleEntry)
  | [] => Except.ok ([], [])
  | e :: rest =>
    if e.event_type = ("fill") ∧ e.lot_type = ty then
      match pyDiv cfg.BATCH_BINPACK_SMALL_LOT_THRESHOLD cfg.FILLING_RATE_VIALS_PER_MIN with
      | Except.error err => Except.error err
      | Except.ok thr =>
        if e.duration_minutes ≤ thr then
          match smallRunSplit cfg ty rest with
          | Except.error err => Except.error err
          | Except.ok (run, rest2) => Except.ok (e :: run, rest2)
        else Except.ok ([], e :: rest)
    else Except.ok ([], e :: rest)

/-- The clustering pass (source lines 146-163), with fuel (`length` suffices since
every step consumes at least one entry).  After a changeover, the small-lot run is
re-emitted sorted ascending by duration and the scan index then jumps over
`len(small_lots)` further entries (`i = j - 1 + len(small_lots)` followed by
`i += 1`), exactly as in the source. -/
def clusterLoop (cfg : Config) : ℕ → List ScheduleEntry → Except PyError (List ScheduleEntry)
  | 0, _ => Except.ok []
  | _ + 1, [] => Except.ok []
  | fuel + 1, e :: rest =>
    if e.event_type = ("changeover") then
      match smallRunSplit cfg e.lot_type rest with
      | Except.error err => Except.error err
      | Except.ok (run, rest2) =>
        match clusterLoop cfg fuel (rest2.drop run.length) with
        | Except.error err => Except.error err
        | Except.ok tail =>
          Except.ok (e :: (List.insertionSort
            (fun a b => a.duration_minutes ≤ b.duration_minutes) run ++ tail))
    else
      match clusterLoop cfg fuel rest with
      | Except.error err => Except.error err
      | Except.ok tail => Except.ok (e :: tail)

/-- The clustering pass on a whole schedule. -/
def cluster_small_lots (cfg : Config) (sched : List ScheduleEntry) :
    Except PyError (List ScheduleEntry) :=
  clusterLoop cfg sched.length sched

/-- Sum of `duration_minutes` over the entries of one kind (the metric sums of
source lines 169-171). -/
def sumDurations (sched : List ScheduleEntry) (kind : String) : ℚ :=
  ((sched.filter (fun e => e.event_type = kind)).map ScheduleEntry.duration_minutes).sum

/-- `batch_binpack.batch_binpack_schedule`: group by type, sort each group by
descending vials (stable), pack clean windows, local search, clustering, metrics. -/
def batch_binpack_schedule (cfg : Config) (now : ℚ) (lots : List Lot) :
    Except PyError (List ScheduleEntry × Metrics) :=
  let grouped := (Hybrid.groupByType lots).map
    (fun g => (g.1, List.insertionSort (fun a b => -(a.vials : ℤ) ≤ -(b.vials : ℤ)) g.2))
  let init := recleanEntry cfg now ("Initial line reclean")
  match packLoop cfg lots.length [init] (now + cfg.RECLEAN_CYCLE_HOURS * 60) grouped with
  | Except.error e => Except.error e
  | Except.ok (sched, _) =>
    let sched1 := localSearch (Nat.factorial sched.length) sched
    match cluster_small_lots cfg sched1 with
    | Except.error e => Except.error e
    | Except.ok sched2 =>
      let start_t :=
        match sched2.head? with
        | some e => e.start_time
        | none => now
      let end_t :=
        match sched2.getLast? with
        | some e => e.end_time
        | none => now
      Except.ok (sched2,
        { total_time := end_t - start_t,
          total_changeover := sumDurations sched2 ("changeover"),
          total_reclean := sumDurations sched2 ("reclean"),
          total_fill := sumDurations sched2 ("fill") })

end Binpack

/-- Map an Except-valued function over a list, propagating the first error (the
evaluation of a Python sort key list). -/
def mapE {α β : Type} (f : α → Except PyError β) : List α → Except PyError (List β)
  | [] => Except.ok []
  | x :: xs =>
    match f x with
    | Except.error e => Except.error e
    | Except.ok y =>
      match mapE f xs with
      | Except.error e => Except.error e
      | Except.ok ys => Except.ok (y :: ys)

/-- Except-valued analogue of `runSteps`, propagating the first division error. -/
def runStepsE {σ α : Type} (step : σ → α → Except PyError (List ScheduleEntry × σ)) :
    σ → List α → Except PyError (List (List ScheduleEntry) × σ)
  | st, [] => Except.ok ([], st)
  | st, x :: xs =>
    match step st x with
    | Except.error e => Except.error e
    | Except.ok p =>
      match runStepsE step p.2 xs with
      | Except.error e => Except.error e
      | Except.ok q => Except.ok (p.1 :: q.1, q.2)

namespace Fifo

/-- Except-valued version of `Fifo.row`: the fill duration is computed with Python
division semantics (the only failure point of the loop body). -/
def rowE (cfg : Config) (n : ℕ) (st : LoopState) (x : ℕ × Lot) :
    Except PyError (List ScheduleEntry × LoopState) :=
  let i := x.1
  let lot := x.2
  let p1 :=
    if cfg.MAX_CONTINUOUS_RUN_HOURS ≤ st.hours_since_reclean ∧ i < n - 1 ∧ i ≠ 0 then
      ([recleanEntry cfg st.time ("Line reclean")],
       { st with time := st.time + cfg.RECLEAN_CYCLE_HOURS * 60,
                 total_reclean := st.total_reclean + cfg.RECLEAN_CYCLE_HOURS * 60,
                 hours_since_reclean := 0 })
    else ([], st)
  let st1 := p1.2
  let p2 :=
    match st1.last_type with
    | none => (([] : List ScheduleEntry), st1)
    | some t =>
      let co := if lot.type = t then cfg.CHANGEOVER_SAME_TYPE_HOURS
                else cfg.CHANGEOVER_DIFF_TYPE_HOURS
      ([changeoverEntry st1.time lot.type co],
       { st1 with time := st1.time + co * 60,
                  total_changeover := st1.total_changeover + co * 60,
                  hours_since_reclean := st1.hours_since_reclean + co })
  let st2 := p2.2
  match pyDiv (lot.vials : ℚ) cfg.FILLING_RATE_VIALS_PER_MIN with
  | Except.error e => Except.error e
  | Except.ok fm =>
    Except.ok (p1.1 ++ p2.1 ++ [fillEntryAt st2.time lot fm],
      { st2 with time := st2.time + fm, run_time := st2.run_time + fm,
                 hours_since_reclean := st2.hours_since_reclean + fm / 60,
                 last_type := some lot.type })

/-- Except-valued `fifo.generate_schedule`. -/
def generate_scheduleE (cfg : Config) (now : ℚ) (lots : List Lot) :
    Except PyError (List ScheduleEntry × Metrics) :=
  match runStepsE (rowE cfg lots.length) (initState cfg now) (pyEnum lots) with
  | Except.error e => Except.error e
  | Except.ok r =>
    Except.ok (recleanEntry cfg now ("Initial line reclean") :: r.1.flatten,
      loopMetrics now r.2)

end Fifo

namespace Spt

/-- Except-valued version of `Spt.row`. -/
def rowE (cfg : Config) (st : LoopState) (x : ℕ × Lot) :
    Except PyError (List ScheduleEntry × LoopState) :=
  let i := x.1
  let lot := x.2
  let p1 :=
    if i = 0 ∨ cfg.MAX_CONTINUOUS_RUN_HOURS ≤ st.hours_since_reclean then
      ([recleanEntry cfg st.time ("Line reclean")],
       { st with time := st.time + cfg.RECLEAN_CYCLE_HOURS * 60,
                 total_reclean := st.total_reclean + cfg.RECLEAN_CYCLE_HOURS * 60,
                 hours_since_reclean := 0 })
    else ([], st)
  let st1 := p1.2
  let p2 :=
    match st1.last_type with
    | none => (([] : List ScheduleEntry), st1)
    | some t =>
      let co := if lot.type = t then cfg.CHANGEOVER_SAME_TYPE_HOURS
                else cfg.CHANGEOVER_DIFF_TYPE_HOURS
      ([changeoverEntry st1.time lot.type co],
       { st1 with time := st1.time + co * 60,
                  total_changeover := st1.total_changeover + co * 60,
                  hours_since_reclean := st1.hours_since_reclean + co })
  let st2 := p2.2
  match pyDiv (lot.vials : ℚ) cfg.FILLING_RATE_VIALS_PER_MIN with
  | Except.error e => Except.error e
  | Except.ok fm =>
    Except.ok (p1.1 ++ p2.1 ++ [fillEntryAt st2.time lot fm],
      { st2 with time := st2.time + fm, run_time := st2.run_time + fm,
                 hours_since_reclean := st2.hours_since_reclean + fm / 60,
                 last_type := some lot.type })

/-- Except-valued `spt_only.generate_schedule`.  Python's `sorted` evaluates the
key `lot.vials / rate` for every lot before sorting, so the key divisions are
checked first; the subsequent stable sort then agrees with the total-division
sort. -/
def generate_scheduleE (cfg : Config) (now : ℚ) (lots : List Lot) :
    Except PyError (List ScheduleEntry × Metrics) :=
  match mapE (fun l => pyDiv (l.vials : ℚ) cfg.FILLING_RATE_VIALS_PER_MIN) lots with
  | Except.error e => Except.error e
  | Except.ok _ =>
    match runStepsE (rowE cfg) (initState cfg now) (pyEnum (lots_sorted cfg lots)) with
    | Except.error e => Except.error e
    | Except.ok r =>
      Except.ok (recleanEntry cfg now ("Initial line reclean") :: r.1.flatten,
        loopMetrics now r.2)

end Spt

namespace Hybrid

/-- Except-valued version of `Hybrid.row`. -/
def rowE (cfg : Config) (st : LoopState) (item : PlanItem) :
    Except PyError (List ScheduleEntry × LoopState) :=
  let p1 :=
    if item.veryFirst = true ∨ cfg.MAX_CONTINUOUS_RUN_HOURS ≤ st.hours_since_reclean then
      ([recleanEntry cfg st.time ("Line reclean")],
       { st with time := st.time + cfg.RECLEAN_CYCLE_HOURS * 60,
                 total_reclean := st.total_reclean + cfg.RECLEAN_CYCLE_HOURS * 60,
                 hours_since_reclean := 0 })
    else ([], st)
  let st1 := p1.2
  let p2 :=
    if item.veryFirst = true then (([] : List ScheduleEntry), st1)
    else
      let co := if item.groupHead = true then cfg.CHANGEOVER_DIFF_TYPE_HOURS
                else cfg.CHANGEOVER_SAME_TYPE_HOURS
      ([changeoverEntry st1.time item.lot.type co],
       { st1 with time := st1.time + co * 60,
                  total_changeover := st1.total_changeover + co * 60,
                  hours_since_reclean := st1.hours_since_reclean + co })
  let st2 := p2.2
  match pyDiv (item.lot.vials : ℚ) cfg.FILLING_RATE_VIALS_PER_MIN with
  | Except.error e => Except.error e
  | Except.ok fm =>
    Except.ok (p1.1 ++ p2.1 ++ [fillEntryAt st2.time item.lot fm],
      { st2 with time := st2.time + fm, run_time := st2.run_time + fm,
                 hours_since_reclean := st2.hours_since_reclean + fm / 60 })

/-- Except-valued `hybrid_heuristic.generate_schedule`.  The per-group sorts of
line 21 evaluate the key `lot.vials / rate` for every lot (every lot belongs to a
group), so the key divisions are checked first. -/
def generate_scheduleE (cfg : Config) (now : ℚ) (lots : List Lot) :
    Except PyError (List ScheduleEntry × Metrics) :=
  match mapE (fun l => pyDiv (l.vials : ℚ) cfg.FILLING_RATE_VIALS_PER_MIN) lots with
  | Except.error e => Except.error e
  | Except.ok _ =>
    match runStepsE (rowE cfg) (initState cfg now) (plan cfg lots) with
    | Except.error e => Except.error e
    | Except.ok r =>
      Except.ok (recleanEntry cfg now ("Initial line reclean") :: r.1.flatten,
        loopMetrics now r.2)

end Hybrid

/-- The fill entries of a timeline, in order. -/
def fillsOf (s : List ScheduleEntry) : List ScheduleEntry :=
  s.filter (fun e => e.event_type = ("fill"))

/-- The changeover entries of a timeline, in order. -/
def changeoversOf (s : List ScheduleEntry) : List ScheduleEntry :=
  s.filter (fun e => e.event_type = ("changeover"))

/-- The reclean entries of a timeline, in order. -/
def recleansOf (s : List ScheduleEntry) : List ScheduleEntry :=
  s.filter (fun e => e.event_type = ("reclean"))

/-- Whether every adjacent pair of activities is contiguous:
each entry's `end_time` equals the next entry's `start_time`. -/
def contiguousB : List ScheduleEntry → Bool
  | [] => true
  | [_] => true
  | a :: b :: r => (decide (a.end_time = b.start_time)) && contiguousB (b :: r)

/-- Whether a row of entries begins with a reclean activity. -/
def startsWithReclean : List ScheduleEntry → Bool
  | [] => false
  | e :: _ => decide (e.event_type = ("reclean"))

/-- Concrete configuration: rate 1 vial/min, same-type changeover 1 h, different-type
2 h, reclean 1 h, max continuous run 120 h, clean window 100 h, small-lot threshold
50 vials. -/
def cfgA : Config := ⟨1, 1, 2, 1, 120, 100, 50⟩

/-- Two lots of the same type, 60 and 30 vials. -/
def lotsA : List Lot := [⟨("a"), ("A"), 60⟩, ⟨("b"), ("A"), 30⟩]

/-- A three-entry timeline: a changeover to type A, a small type-A fill, a reclean. -/
def tlB : List ScheduleEntry :=
  [changeoverEntry 0 ("A") 1, fillEntryAt 60 ⟨("x"), ("A"), 10⟩ 10,
   recleanEntry cfgA 70 ("Line reclean")]

/-- Concrete configuration with a short continuous-run limit of 1/2 h. -/
def cfgC : Config := ⟨1, 1, 2, 1, 1/2, 100, 50⟩

/-- Three same-type lots of one hour of fill each. -/
def lotsC : List Lot := [⟨("a"), ("A"), 60⟩, ⟨("b"), ("A"), 60⟩, ⟨("c"), ("A"), 60⟩]

/-- The configuration values of `config.py`. -/
def cfgD : Config := ⟨332, 4, 8, 24, 120, 120, 50000⟩

/-- Concrete configuration with a negative filling rate. -/
def cfgNeg : Config := ⟨-1, 1, 2, 1, 120, 100, 50⟩

/-- Concrete configuration with a zero filling rate. -/
def cfgZero : Config := ⟨0, 1, 2, 1, 120, 100, 50⟩

/-- A single ten-vial lot. -/
def lotsOne : List Lot := [⟨("a"), ("A"), 10⟩]

/-- Three lots over two types: type A holds 15 vials in total, type B holds 30. -/
def lotsF : List Lot := [⟨("a"), ("A"), 10⟩, ⟨("b"), ("B"), 30⟩, ⟨("c"), ("A"), 5⟩]

/-- Concrete configuration with a zero continuous-run limit. -/
def cfgW : Config := ⟨1, 1, 2, 1, 0, 100, 50⟩

/-- Default values for out-of-range list reads. -/
instance : Inhabited Lot := ⟨⟨("lot"), ("type"), 1⟩⟩

instance : Inhabited Hybrid.PlanItem := ⟨⟨default, false, false⟩⟩

/-- The cursor-accounting invariant of the three linear loops: the cursor always
equals the start time plus the initial reclean plus all accumulated durations. -/
def TimeInv (cfg : Config) (now : ℚ) (st : LoopState) : Prop :=
  st.time = now + cfg.RECLEAN_CYCLE_HOURS * 60 + st.total_changeover +
    st.total_reclean + st.run_time

section GenericLemmas

variable {σ α : Type}

theorem runSteps_length (step : σ → α → List ScheduleEntry × σ) :
    ∀ (l : List α) (st : σ), ((runSteps step st l).1).length = l.length
  | [], _ => rfl
  | x :: xs, st => by
    simp only [runSteps, List.length_cons]
    rw [runSteps_length step xs]

theorem allStates_length (step : σ → α → List ScheduleEntry × σ) :
    ∀ (l : List α) (st : σ), (allStates step st l).length = l.length + 1
  | [], _ => rfl
  | x :: xs, st => by
    simp only [allStates, List.length_cons]
    rw [allStates_length step xs]

theorem runSteps_join_filter_map {β : Type} (step : σ → α → List ScheduleEntry × σ)
    (p : ScheduleEntry → Bool) (f : ScheduleEntry → β) (g : α → List β)
    (h : ∀ st x, (((step st x).1.filter p).map f) = g x) :
    ∀ (l : List α) (st : σ),
      ((((runSteps step st l).1.flatten).filter p).map f) = (l.map g).flatten
  | [], _ => rfl
  | x :: xs, st => by
    simp only [runSteps, List.flatten_cons, List.filter_append, List.map_append,
      List.map_cons]
    rw [h st x, runSteps_join_filter_map step p f g h xs]

theorem runSteps_invariant (step : σ → α → List ScheduleEntry × σ) (P : σ → Prop)
    (h : ∀ st x, P st → P (step st x).2) :
    ∀ (l : List α) (st : σ), P st → P (runSteps step st l).2
  | [], _, hst => hst
  | x :: xs, st, hst =>
    runSteps_invariant step P h xs (step st x).2 (h st x hst)

theorem runSteps_getD (step : σ → α → List ScheduleEntry × σ) (d : α) (d2 : σ) :
    ∀ (l : List α) (st : σ) (k : ℕ), k < l.length →
      (runSteps step st l).1.getD k [] =
        (step ((allStates step st l).getD k d2) (l.getD k d)).1
  | [], _, k, hk => absurd hk (by simp)
  | x :: xs, st, 0, _ => by simp [runSteps, allStates]
  | x :: xs, st, k + 1, hk => by
    simp only [runSteps, allStates, List.getD_cons_succ]
    exact runSteps_getD step d d2 xs (step st x).2 k (by simpa using hk)

theorem enumFrom_length : ∀ (i : ℕ) (l : List α), (enumFrom i l).length = l.length
  | _, [] => rfl
  | i, x :: xs => by
    simp only [enumFrom, List.length_cons]
    rw [enumFrom_length (i + 1) xs]

theorem enumFrom_getD (dl : α) :
    ∀ (l : List α) (i k : ℕ), k < l.length →
      (enumFrom i l).getD k (0, dl) = (i + k, l.getD k dl)
  | [], _, k, hk => absurd hk (by simp)
  | x :: xs, i, 0, _ => by simp [enumFrom]
  | x :: xs, i, k + 1, hk => by
    simp only [enumFrom, List.getD_cons_succ]
    rw [enumFrom_getD dl xs (i + 1) k (by simpa using hk)]
    ring_nf

theorem enumFrom_map_snd : ∀ (i : ℕ) (l : List α), (enumFrom i l).map Prod.snd = l
  | _, [] => rfl
  | i, x :: xs => by
    simp only [enumFrom, List.map_cons]
    rw [enumFrom_map_snd (i + 1) xs]

theorem flatten_map_singleton {β γ : Type} (g : β → γ) :
    ∀ (l : List β), ((l.map (fun x => [g x])).flatten) = l.map g
  | [] => rfl
  | x :: xs => by
    simp only [List.map_cons, List.flatten_cons, List.singleton_append]
    rw [flatten_map_singleton g xs]

end GenericLemmas

theorem findSome_improving (s : List ScheduleEntry) :
    ∀ (ps : List (ℕ × ℕ)) (s2 : List ScheduleEntry),
      (ps.findSome? (fun ij =>
        let s3 := Binpack.swapEntries s ij.1 ij.2
        if Binpack.objective s3 < Binpack.objective s then some s3 else none))
        = some s2 →
      Binpack.objective s2 < Binpack.objective s
  | [], s2, h => by simp at h
  | a :: ps, s2, h => by
    rw [List.findSome?_cons] at h
    by_cases hc :
        Binpack.objective (Binpack.swapEntries s a.1 a.2) < Binpack.objective s
    · simp only [if_pos hc] at h
      cases h
      exact hc
    · simp only [if_neg hc] at h
      exact findSome_improving s ps s2 h

theorem findImprovingSwap_lt (s s2 : List ScheduleEntry)
    (h : Binpack.findImprovingSwap s = some s2) :
    Binpack.objective s2 < Binpack.objective s := by
  unfold Binpack.findImprovingSwap at h
  exact findSome_improving s (Binpack.adjPairs (Binpack.fillIndices s)) s2 h

/-- C7: the local-search phase never increases the code's objective
(makespan + total changeover + total reclean minutes): for every input schedule and
any number of hill-climbing steps, the output objective is at most the input
objective, because every accepted swap strictly decreases it. -/
theorem C7_local_search_nonregression :
    ∀ (fuel : ℕ) (s : List ScheduleEntry),
      Binpack.objective (Binpack.localSearch fuel s) ≤ Binpack.objective s
  | 0, _ => le_refl _
  | fuel + 1, s => by
    rw [Binpack.localSearch]
    cases h : Binpack.findImprovingSwap s with
    | none => exact le_refl _
    | some s2 =>
      exact le_trans (C7_local_search_nonregression fuel s2)
        (le_of_lt (findImprovingSwap_lt s s2 h))

/-- C1 fails on the code: on two same-type lots the bin-pack strategy's local
search swaps the two fill entries together with their stored timestamps and never
recomputes them, so the returned timeline is not contiguous (adjacent end/start
times differ). -/
theorem C1_binpack_not_contiguous :
    Except.map (fun p => contiguousB p.1)
      (Binpack.batch_binpack_schedule cfgA 0 lotsA) = Except.ok false := by
  with_unfolding_all rfl

/-- C2 fails on the code: the clustering pass's index arithmetic
(`i = j - 1 + len(small_lots)`) skips `len(small_lots)` entries after a non-empty
small-lot run, dropping them from the output; here a three-entry timeline
(changeover, small fill, reclean) loses its reclean. -/
theorem C2_cluster_drops_entries :
    Except.map (fun s => s.map ScheduleEntry.event_type)
        (Binpack.cluster_small_lots cfgA tlB)
      = Except.ok [("changeover"), ("fill")] ∧
    tlB.map ScheduleEntry.event_type = [("changeover"), ("fill"), ("reclean")] := by
  constructor
  · with_unfolding_all rfl
  · with_unfolding_all rfl

/-- C4 as stated is false: on an empty lot list the FIFO strategy (with the values
of `config.py`) returns metrics whose Total Time (min) is 1440 (the initial
reclean), not 0. -/
theorem C4_counterexample :
    (Fifo.generate_schedule cfgD 0 []).2.total_time = 1440 ∧ (1440 : ℚ) ≠ 0 := by
  constructor
  · with_unfolding_all rfl
  · with_unfolding_all decide

/-- C5 as stated is false: with a negative filling rate (which is `<= 0`) the FIFO
strategy raises nothing at all — it returns a schedule (with negative fill
durations), not a `ConfigurationError`. -/
theorem C5_counterexample :
    cfgNeg.FILLING_RATE_VIALS_PER_MIN ≤ 0 ∧
    (Fifo.generate_scheduleE cfgNeg 0 lotsOne).isOk = true := by
  constructor
  · with_unfolding_all decide
  · with_unfolding_all rfl

theorem fifo_row_timeInv (cfg : Config) (n : ℕ) (now : ℚ) (st : LoopState)
    (x : ℕ × Lot) (h : TimeInv cfg now st) : TimeInv cfg now (Fifo.row cfg n st x).2 := by
  unfold TimeInv at h ⊢
  dsimp only [Fifo.row]
  by_cases hc : cfg.MAX_CONTINUOUS_RUN_HOURS ≤ st.hours_since_reclean ∧
      x.1 < n - 1 ∧ x.1 ≠ 0
  · cases hm : st.last_type <;> simp [hc, hm] <;> linarith
  · cases hm : st.last_type <;> simp [hc, hm] <;> linarith

theorem spt_row_timeInv (cfg : Config) (now : ℚ) (st : LoopState)
    (x : ℕ × Lot) (h : TimeInv cfg now st) : TimeInv cfg now (Spt.row cfg st x).2 := by
  unfold TimeInv at h ⊢
  dsimp only [Spt.row]
  by_cases hc : x.1 = 0 ∨ cfg.MAX_CONTINUOUS_RUN_HOURS ≤ st.hours_since_reclean
  · cases hm : st.last_type <;> simp [hc, hm] <;> linarith
  · cases hm : st.last_type <;> simp [hc, hm] <;> linarith

theorem hybrid_row_timeInv (cfg : Config) (now : ℚ) (st : LoopState)
    (item : Hybrid.PlanItem) (h : TimeInv cfg now st) :
    TimeInv cfg now (Hybrid.row cfg st item).2 := by
  unfold TimeInv at h ⊢
  dsimp only [Hybrid.row]
  by_cases hv : item.veryFirst = true <;>
    by_cases hd : cfg.MAX_CONTINUOUS_RUN_HOURS ≤ st.hours_since_reclean <;>
      simp [hv, hd] <;> linarith

/-- C10: for FIFO, SPT and Hybrid the initial line reclean is excluded from Total
Reclean Time (min) but included in Total Time (min), so Total Time equals
changeover + reclean + fill totals plus `RECLEAN_CYCLE_HOURS * 60`. -/
theorem C10_total_time_identity (cfg : Config) (now : ℚ) (lots : List Lot) :
    ((Fifo.generate_schedule cfg now lots).2.total_time =
      (Fifo.generate_schedule cfg now lots).2.total_changeover +
      (Fifo.generate_schedule cfg now lots).2.total_reclean +
      (Fifo.generate_schedule cfg now lots).2.total_fill +
      cfg.RECLEAN_CYCLE_HOURS * 60) ∧
    ((Spt.generate_schedule cfg now lots).2.total_time =
      (Spt.generate_schedule cfg now lots).2.total_changeover +
      (Spt.generate_schedule cfg now lots).2.total_reclean +
      (Spt.generate_schedule cfg now lots).2.total_fill +
      cfg.RECLEAN_CYCLE_HOURS * 60) ∧
    ((Hybrid.generate_schedule cfg now lots).2.total_time =
      (Hybrid.generate_schedule cfg now lots).2.total_changeover +
      (Hybrid.generate_schedule cfg now lots).2.total_reclean +
      (Hybrid.generate_schedule cfg now lots).2.total_fill +
      cfg.RECLEAN_CYCLE_HOURS * 60) := by
  have hinit : TimeInv cfg now (initState cfg now) := by
    unfold TimeInv initState
    simp
  refine ⟨?_, ?_, ?_⟩
  · have hfin := runSteps_invariant (Fifo.row cfg lots.length) (TimeInv cfg now)
      (fun st x => fifo_row_timeInv cfg lots.length now st x)
      (pyEnum lots) (initState cfg now) hinit
    unfold TimeInv at hfin
    simp only [Fifo.generate_schedule, Fifo.rows, loopMetrics]
    linarith
  · have hfin := runSteps_invariant (Spt.row cfg) (TimeInv cfg now)
      (fun st x => spt_row_timeInv cfg now st x)
      (pyEnum (Spt.lots_sorted cfg lots)) (initState cfg now) hinit
    unfold TimeInv at hfin
    simp only [Spt.generate_schedule, Spt.rows, loopMetrics]
    linarith
  · have hfin := runSteps_invariant (Hybrid.row cfg) (TimeInv cfg now)
      (fun st x => hybrid_row_timeInv cfg now st x)
      (Hybrid.plan cfg lots) (initState cfg now) hinit
    unfold TimeInv at hfin
    simp only [Hybrid.generate_schedule, Hybrid.rows, loopMetrics]
    linarith

theorem spt_row_fills_id (cfg : Config) (st : LoopState) (x : ℕ × Lot) :
    (((Spt.row cfg st x).1.filter (fun e => e.event_type = ("fill"))).map
      ScheduleEntry.lot_id) = [some x.2.id] := by
  dsimp only [Spt.row]
  by_cases hc : x.1 = 0 ∨ cfg.MAX_CONTINUOUS_RUN_HOURS ≤ st.hours_since_reclean <;>
    cases hm : st.last_type <;>
      simp [hc, hm, recleanEntry, changeoverEntry, fillEntryAt]

theorem spt_row_fills_dur (cfg : Config) (st : LoopState) (x : ℕ × Lot) :
    (((Spt.row cfg st x).1.filter (fun e => e.event_type = ("fill"))).map
      ScheduleEntry.duration_minutes) = [fill_minutes cfg x.2] := by
  dsimp only [Spt.row]
  by_cases hc : x.1 = 0 ∨ cfg.MAX_CONTINUOUS_RUN_HOURS ≤ st.hours_since_reclean <;>
    cases hm : st.last_type <;>
      simp [hc, hm, recleanEntry, changeoverEntry, fillEntryAt]

theorem spt_fills_eq {β : Type} (cfg : Config) (now : ℚ) (lots : List Lot)
    (f : ScheduleEntry → β) (g0 : Lot → β)
    (hrow : ∀ st x, (((Spt.row cfg st x).1.filter
      (fun e => e.event_type = ("fill"))).map f) = [g0 x.2]) :
    ((fillsOf (Spt.generate_schedule cfg now lots).1).map f)
      = (Spt.lots_sorted cfg lots).map g0 := by
  have h1 := runSteps_join_filter_map (Spt.row cfg)
    (fun e => e.event_type = ("fill")) f (fun x => [g0 x.2]) hrow
    (pyEnum (Spt.lots_sorted cfg lots)) (initState cfg now)
  simp only [fillsOf, Spt.generate_schedule, Spt.rows]
  rw [List.filter_cons_of_neg (by simp [recleanEntry])]
  rw [h1, flatten_map_singleton]
  rw [show (fun x : ℕ × Lot => g0 x.2) = g0 ∘ Prod.snd from rfl]
  rw [← List.map_map, pyEnum, enumFrom_map_snd]

/-- C8: the SPT strategy processes the lots stably sorted ascending by fill
duration (`lot.vials / rate`), ignoring type: the fill activities carry exactly
the sorted lots' ids and durations, and the fill durations are non-decreasing
across the timeline. -/
theorem C8_spt_ordering (cfg : Config) (now : ℚ) (lots : List Lot) :
    ((fillsOf (Spt.generate_schedule cfg now lots).1).map ScheduleEntry.lot_id
      = (Spt.lots_sorted cfg lots).map (fun l => some l.id)) ∧
    ((fillsOf (Spt.generate_schedule cfg now lots).1).map
        ScheduleEntry.duration_minutes
      = (Spt.lots_sorted cfg lots).map (fill_minutes cfg)) ∧
    ((fillsOf (Spt.generate_schedule cfg now lots).1).map
        ScheduleEntry.duration_minutes).Pairwise (fun a b => a ≤ b) := by
  have hdur := spt_fills_eq cfg now lots ScheduleEntry.duration_minutes
    (fill_minutes cfg) (spt_row_fills_dur cfg)
  refine ⟨?_, hdur, ?_⟩
  · exact spt_fills_eq cfg now lots ScheduleEntry.lot_id
      (fun l => some l.id) (spt_row_fills_id cfg)
  · rw [hdur]
    haveI : IsTotal Lot (fun a b => fill_minutes cfg a ≤ fill_minutes cfg b) :=
      ⟨fun a b => le_total _ _⟩
    haveI : IsTrans Lot (fun a b => fill_minutes cfg a ≤ fill_minutes cfg b) :=
      ⟨fun a b c hab hbc => le_trans hab hbc⟩
    exact List.pairwise_map.mpr (List.sorted_insertionSort _ lots)

/-- C9: for every non-empty lot list the SPT timeline begins with two consecutive
recleans: the initial line reclean and the unconditional reclean the loop emits
before the first (index 0) lot. -/
theorem C9_spt_double_reclean (cfg : Config) (now : ℚ) (lots : List Lot)
    (h : lots ≠ []) :
    ((Spt.generate_schedule cfg now lots).1.take 2)
      = [recleanEntry cfg now ("Initial line reclean"),
         recleanEntry cfg (now + cfg.RECLEAN_CYCLE_HOURS * 60) ("Line reclean")] := by
  cases hs : Spt.lots_sorted cfg lots with
  | nil =>
    exfalso
    apply h
    have := List.length_insertionSort
      (fun a b : Lot => fill_minutes cfg a ≤ fill_minutes cfg b) lots
    rw [show List.insertionSort (fun a b : Lot =>
      fill_minutes cfg a ≤ fill_minutes cfg b) lots = Spt.lots_sorted cfg lots from rfl,
      hs] at this
    exact List.eq_nil_of_length_eq_zero this.symm
  | cons x xs =>
    simp [Spt.generate_schedule, Spt.rows, hs, pyEnum, enumFrom, runSteps,
      Spt.row, initState]

theorem addLotToGroups_types :
    ∀ (gs : List (String × List Lot)) (lot : Lot),
      (∀ g ∈ gs, ∀ l ∈ g.2, l.type = g.1) →
      ∀ g ∈ Hybrid.addLotToGroups gs lot, ∀ l ∈ g.2, l.type = g.1
  | [], lot, _ => by
    intro g hg l hl
    simp only [Hybrid.addLotToGroups, List.mem_singleton] at hg
    subst hg
    simp only [List.mem_singleton] at hl
    subst hl
    rfl
  | (t, ls) :: gs, lot, h => by
    intro g hg l hl
    dsimp only [Hybrid.addLotToGroups] at hg
    by_cases he : lot.type = t
    · rw [if_pos he] at hg
      rcases List.mem_cons.mp hg with h1 | h2
      · subst h1
        rcases List.mem_append.mp hl with hl1 | hl2
        · exact h (t, ls) (List.mem_cons_self _ _) l hl1
        · simp only [List.mem_singleton] at hl2
          subst hl2
          exact he
      · exact h g (List.mem_cons_of_mem _ h2) l hl
    · rw [if_neg he] at hg
      rcases List.mem_cons.mp hg with h1 | h2
      · subst h1
        exact h (t, ls) (List.mem_cons_self _ _) l hl
      · exact addLotToGroups_types gs lot
          (fun g2 hg2 => h g2 (List.mem_cons_of_mem _ hg2)) g h2 l hl

theorem groupByType_types_aux :
    ∀ (lots : List Lot) (gs : List (String × List Lot)),
      (∀ g ∈ gs, ∀ l ∈ g.2, l.type = g.1) →
      ∀ g ∈ List.foldl Hybrid.addLotToGroups gs lots, ∀ l ∈ g.2, l.type = g.1
  | [], _, h => h
  | lot :: lots, gs, h =>
    groupByType_types_aux lots (Hybrid.addLotToGroups gs lot)
      (addLotToGroups_types gs lot h)

theorem hybrid_groups_types (cfg : Config) (lots : List Lot) :
    ∀ g ∈ Hybrid.hybrid_groups cfg lots, ∀ l ∈ g.2, l.type = g.1 := by
  intro g hg l hl
  unfold Hybrid.hybrid_groups at hg
  rw [List.mem_insertionSort] at hg
  rcases List.mem_map.mp hg with ⟨g0, hg0, he⟩
  subst he
  dsimp only at hl
  rw [List.mem_insertionSort] at hl
  exact groupByType_types_aux lots [] (by simp) g0 hg0 l hl

theorem hybrid_groups_sorted (cfg : Config) (lots : List Lot) :
    ∀ g ∈ Hybrid.hybrid_groups cfg lots,
      (g.2.map (fill_minutes cfg)).Pairwise (fun a b => a ≤ b) := by
  intro g hg
  unfold Hybrid.hybrid_groups at hg
  rw [List.mem_insertionSort] at hg
  rcases List.mem_map.mp hg with ⟨g0, _, he⟩
  subst he
  dsimp only
  haveI : IsTotal Lot (fun a b => fill_minutes cfg a ≤ fill_minutes cfg b) :=
    ⟨fun a b => le_total _ _⟩
  haveI : IsTrans Lot (fun a b => fill_minutes cfg a ≤ fill_minutes cfg b) :=
    ⟨fun a b c hab hbc => le_trans hab hbc⟩
  exact List.pairwise_map.mpr (List.sorted_insertionSort _ g0.2)

theorem hybrid_groups_order (cfg : Config) (lots : List Lot) :
    ((Hybrid.hybrid_groups cfg lots).map (fun g => Hybrid.sumVials g.2)).Pairwise
      (fun a b => b ≤ a) := by
  unfold Hybrid.hybrid_groups
  haveI : IsTotal (String × List Lot)
      (fun g1 g2 => -(Hybrid.sumVials g1.2) ≤ -(Hybrid.sumVials g2.2)) :=
    ⟨fun a b => le_total _ _⟩
  haveI : IsTrans (String × List Lot)
      (fun g1 g2 => -(Hybrid.sumVials g1.2) ≤ -(Hybrid.sumVials g2.2)) :=
    ⟨fun a b c hab hbc => le_trans hab hbc⟩
  have hs := List.sorted_insertionSort
    (fun g1 g2 => -(Hybrid.sumVials g1.2) ≤ -(Hybrid.sumVials g2.2))
    ((Hybrid.groupByType lots).map (fun g =>
      (g.1, List.insertionSort
        (fun a b => fill_minutes cfg a ≤ fill_minutes cfg b) g.2)))
  exact List.pairwise_map.mpr (hs.imp (fun hab => by simpa using hab))

theorem hybrid_row_fills_id (cfg : Config) (st : LoopState) (item : Hybrid.PlanItem) :
    (((Hybrid.row cfg st item).1.filter (fun e => e.event_type = ("fill"))).map
      ScheduleEntry.lot_id) = [some item.lot.id] := by
  dsimp only [Hybrid.row]
  by_cases hv : item.veryFirst = true <;>
    by_cases hd : cfg.MAX_CONTINUOUS_RUN_HOURS ≤ st.hours_since_reclean <;>
      simp [hv, hd, recleanEntry, changeoverEntry, fillEntryAt]

theorem hybrid_row_fills_dur (cfg : Config) (st : LoopState) (item : Hybrid.PlanItem) :
    (((Hybrid.row cfg st item).1.filter (fun e => e.event_type = ("fill"))).map
      ScheduleEntry.duration_minutes) = [fill_minutes cfg item.lot] := by
  dsimp only [Hybrid.row]
  by_cases hv : item.veryFirst = true <;>
    by_cases hd : cfg.MAX_CONTINUOUS_RUN_HOURS ≤ st.hours_since_reclean <;>
      simp [hv, hd, recleanEntry, changeoverEntry, fillEntryAt]

theorem hybrid_row_changeovers (cfg : Config) (st : LoopState)
    (item : Hybrid.PlanItem) :
    (((Hybrid.row cfg st item).1.filter
        (fun e => e.event_type = ("changeover"))).map
      ScheduleEntry.duration_minutes)
      = (if item.veryFirst = true then []
         else [(if item.groupHead = true then cfg.CHANGEOVER_DIFF_TYPE_HOURS
                else cfg.CHANGEOVER_SAME_TYPE_HOURS) * 60]) := by
  dsimp only [Hybrid.row]
  by_cases hv : item.veryFirst = true <;>
    by_cases hd : cfg.MAX_CONTINUOUS_RUN_HOURS ≤ st.hours_since_reclean <;>
      simp [hv, hd, recleanEntry, changeoverEntry, fillEntryAt]

/-- C6: hybrid structure.  The fill activities follow the plan — the lots grouped
by type (encounter order), each group stably sorted ascending by fill duration,
groups ordered descending by total vials — and the changeover emitted before each
planned lot has different-type duration exactly at a group boundary (regardless of
actual type adjacency) and same-type duration inside a group, with no changeover
before the very first lot. -/
theorem C6_hybrid_structure (cfg : Config) (now : ℚ) (lots : List Lot) :
    ((fillsOf (Hybrid.generate_schedule cfg now lots).1).map ScheduleEntry.lot_id
      = (Hybrid.plan cfg lots).map (fun it => some it.lot.id)) ∧
    ((fillsOf (Hybrid.generate_schedule cfg now lots).1).map
        ScheduleEntry.duration_minutes
      = (Hybrid.plan cfg lots).map (fun it => fill_minutes cfg it.lot)) ∧
    ((changeoversOf (Hybrid.generate_schedule cfg now lots).1).map
        ScheduleEntry.duration_minutes
      = ((Hybrid.plan cfg lots).map (fun it =>
          if it.veryFirst = true then ([] : List ℚ)
          else [(if it.groupHead = true then cfg.CHANGEOVER_DIFF_TYPE_HOURS
                 else cfg.CHANGEOVER_SAME_TYPE_HOURS) * 60])).flatten) ∧
    (∀ g ∈ Hybrid.hybrid_groups cfg lots, (∀ l ∈ g.2, l.type = g.1) ∧
      ((g.2.map (fill_minutes cfg)).Pairwise (fun a b => a ≤ b))) ∧
    (((Hybrid.hybrid_groups cfg lots).map (fun g => Hybrid.sumVials g.2)).Pairwise
      (fun a b => b ≤ a)) := by
  refine ⟨?_, ?_, ?_, ?_, hybrid_groups_order cfg lots⟩
  · have h1 := runSteps_join_filter_map (Hybrid.row cfg)
      (fun e => e.event_type = ("fill")) ScheduleEntry.lot_id
      (fun it => [some it.lot.id]) (hybrid_row_fills_id cfg)
      (Hybrid.plan cfg lots) (initState cfg now)
    simp only [fillsOf, Hybrid.generate_schedule, Hybrid.rows]
    rw [List.filter_cons_of_neg (by simp [recleanEntry])]
    rw [h1, flatten_map_singleton]
  · have h1 := runSteps_join_filter_map (Hybrid.row cfg)
      (fun e => e.event_type = ("fill")) ScheduleEntry.duration_minutes
      (fun it => [fill_minutes cfg it.lot]) (hybrid_row_fills_dur cfg)
      (Hybrid.plan cfg lots) (initState cfg now)
    simp only [fillsOf, Hybrid.generate_schedule, Hybrid.rows]
    rw [List.filter_cons_of_neg (by simp [recleanEntry])]
    rw [h1, flatten_map_singleton]
  · have h1 := runSteps_join_filter_map (Hybrid.row cfg)
      (fun e => e.event_type = ("changeover")) ScheduleEntry.duration_minutes
      (fun it => if it.veryFirst = true then ([] : List ℚ)
        else [(if it.groupHead = true then cfg.CHANGEOVER_DIFF_TYPE_HOURS
               else cfg.CHANGEOVER_SAME_TYPE_HOURS) * 60])
      (hybrid_row_changeovers cfg)
      (Hybrid.plan cfg lots) (initState cfg now)
    simp only [changeoversOf, Hybrid.generate_schedule, Hybrid.rows]
    rw [List.filter_cons_of_neg (by simp [recleanEntry])]
    rw [h1]
  · intro g hg
    exact ⟨hybrid_groups_types cfg lots g hg, hybrid_groups_sorted cfg lots g hg⟩

/-- Witness for C6 at a concrete input: three lots over two types; the inner
hypotheses (group membership) are discharged by evaluation. -/
theorem C6_hybrid_structure_witness :
    (⟨("b"), ("B"), 30⟩ : Lot).type = ("B") :=
  ((C6_hybrid_structure cfgA 0 lotsF).2.2.2.1
    ((("B") : String), [⟨("b"), ("B"), 30⟩])
    (by with_unfolding_all decide)).1
    ⟨("b"), ("B"), 30⟩ (by with_unfolding_all decide)

theorem runSteps_get? {σ α : Type} (step : σ → α → List ScheduleEntry × σ) :
    ∀ (l : List α) (st : σ) (k : ℕ) (x : α) (s2 : σ),
      l.get? k = some x → (allStates step st l).get? k = some s2 →
      (runSteps step st l).1.get? k = some (step s2 x).1
  | [], _, k, _, _, hx, _ => by simp at hx
  | y :: ys, st, 0, x, s2, hx, hs => by
    simp only [List.get?] at hx hs
    cases hx
    cases hs
    rfl
  | y :: ys, st, k + 1, x, s2, hx, hs => by
    simp only [List.get?] at hx hs
    exact runSteps_get? step ys (step st y).2 k x s2 hx hs

theorem enumFrom_get? {α : Type} :
    ∀ (l : List α) (i k : ℕ),
      (enumFrom i l).get? k = (l.get? k).map (fun a => (i + k, a))
  | [], _, _ => by simp [enumFrom]
  | x :: xs, i, 0 => by simp [enumFrom]
  | x :: xs, i, k + 1 => by
    simp only [enumFrom, List.get?]
    rw [enumFrom_get? xs (i + 1) k]
    cases xs.get? k <;> simp <;> omega

theorem fifo_row_startsWithReclean (cfg : Config) (n : ℕ) (st : LoopState)
    (x : ℕ × Lot) :
    startsWithReclean (Fifo.row cfg n st x).1
      = decide (cfg.MAX_CONTINUOUS_RUN_HOURS ≤ st.hours_since_reclean ∧
          x.1 < n - 1 ∧ x.1 ≠ 0) := by
  dsimp only [Fifo.row]
  by_cases hc : cfg.MAX_CONTINUOUS_RUN_HOURS ≤ st.hours_since_reclean ∧
      x.1 < n - 1 ∧ x.1 ≠ 0 <;>
    cases hm : st.last_type <;>
      simp [hc, hm, startsWithReclean, recleanEntry, changeoverEntry, fillEntryAt]

theorem fifo_row_head_reclean (cfg : Config) (n : ℕ) (st : LoopState) (x : ℕ × Lot)
    (hc : cfg.MAX_CONTINUOUS_RUN_HOURS ≤ st.hours_since_reclean ∧
      x.1 < n - 1 ∧ x.1 ≠ 0) :
    (Fifo.row cfg n st x).1.head? = some (recleanEntry cfg st.time ("Line reclean")) := by
  dsimp only [Fifo.row]
  cases hm : st.last_type <;> simp [hc, hm]

theorem spt_row_startsWithReclean (cfg : Config) (st : LoopState) (x : ℕ × Lot) :
    startsWithReclean (Spt.row cfg st x).1
      = decide (x.1 = 0 ∨ cfg.MAX_CONTINUOUS_RUN_HOURS ≤ st.hours_since_reclean) := by
  dsimp only [Spt.row]
  by_cases hc : x.1 = 0 ∨ cfg.MAX_CONTINUOUS_RUN_HOURS ≤ st.hours_since_reclean <;>
    cases hm : st.last_type <;>
      simp [hc, hm, startsWithReclean, recleanEntry, changeoverEntry, fillEntryAt]

theorem spt_row_head_reclean (cfg : Config) (st : LoopState) (x : ℕ × Lot)
    (hc : x.1 = 0 ∨ cfg.MAX_CONTINUOUS_RUN_HOURS ≤ st.hours_since_reclean) :
    (Spt.row cfg st x).1.head? = some (recleanEntry cfg st.time ("Line reclean")) := by
  dsimp only [Spt.row]
  cases hm : st.last_type <;> simp [hc, hm]

theorem hybrid_row_startsWithReclean (cfg : Config) (st : LoopState)
    (item : Hybrid.PlanItem) :
    startsWithReclean (Hybrid.row cfg st item).1
      = decide (item.veryFirst = true ∨
          cfg.MAX_CONTINUOUS_RUN_HOURS ≤ st.hours_since_reclean) := by
  dsimp only [Hybrid.row]
  by_cases hv : item.veryFirst = true <;>
    by_cases hd : cfg.MAX_CONTINUOUS_RUN_HOURS ≤ st.hours_since_reclean <;>
      simp [hv, hd, startsWithReclean, recleanEntry, changeoverEntry, fillEntryAt]

theorem hybrid_row_head_reclean (cfg : Config) (st : LoopState)
    (item : Hybrid.PlanItem)
    (hc : item.veryFirst = true ∨
      cfg.MAX_CONTINUOUS_RUN_HOURS ≤ st.hours_since_reclean) :
    (Hybrid.row cfg st item).1.head?
      = some (recleanEntry cfg st.time ("Line reclean")) := by
  dsimp only [Hybrid.row]
  rcases hc with hc1 | hc2
  · simp [hc1]
  · by_cases hv : item.veryFirst = true <;> simp [hv, hc2]

theorem enumFrom_fst_ge {α : Type} :
    ∀ (l : List α) (i : ℕ) (p : ℕ × α), p ∈ enumFrom i l → i ≤ p.1
  | [], _, _, hp => absurd hp (by simp [enumFrom])
  | x :: xs, i, p, hp => by
    rcases List.mem_cons.mp hp with h1 | h2
    · subst h1; exact le_refl i
    · exact le_trans (Nat.le_succ i) (enumFrom_fst_ge xs (i + 1) p h2)

theorem get?_append_cases {α : Type} :
    ∀ (l1 l2 : List α) (k : ℕ) (a : α), (l1 ++ l2).get? k = some a →
      (k < l1.length ∧ l1.get? k = some a) ∨
      (l1.length ≤ k ∧ l2.get? (k - l1.length) = some a)
  | l1, l2, k, a, h => by
    by_cases hlt : k < l1.length
    · left
      refine ⟨hlt, ?_⟩
      rwa [List.get?_append hlt] at h
    · right
      refine ⟨le_of_not_lt hlt, ?_⟩
      rwa [List.get?_append_right (le_of_not_lt hlt)] at h

theorem planGroups_not_veryFirst :
    ∀ (gs : List (ℕ × (String × List Lot))) (item : Hybrid.PlanItem),
      (∀ p ∈ gs, 1 ≤ p.1) →
      item ∈ (gs.map (fun gi => (enumFrom 0 gi.2.2).map
        (fun il => Hybrid.PlanItem.mk il.2 (gi.1 = 0 ∧ il.1 = 0 : Bool)
          (il.1 = 0 : Bool)))).flatten →
      item.veryFirst = false := by
  intro gs item hidx hmem
  rw [List.mem_flatten] at hmem
  rcases hmem with ⟨l2, hl2, hmeml⟩
  rcases List.mem_map.mp hl2 with ⟨gi, hgi, he2⟩
  subst he2
  rcases List.mem_map.mp hmeml with ⟨il, _, he3⟩
  have hge := hidx gi hgi
  rw [← he3]
  simp only [decide_eq_false_iff_not]
  intro hcontra
  omega

theorem plan_tail_not_veryFirst (cfg : Config) (lots : List Lot) :
    ∀ (k : ℕ) (item : Hybrid.PlanItem), 1 ≤ k →
      (Hybrid.plan cfg lots).get? k = some item → item.veryFirst = false := by
  intro k item hk hget
  unfold Hybrid.plan at hget
  cases hgs : Hybrid.hybrid_groups cfg lots with
  | nil => rw [hgs] at hget; simp [pyEnum, enumFrom] at hget
  | cons g rest =>
    rw [hgs] at hget
    simp only [pyEnum, enumFrom, List.map_cons, List.flatten_cons] at hget
    rcases get?_append_cases _ _ _ _ hget with ⟨hlt, h1⟩ | ⟨hge, h2⟩
    · rw [List.get?_map, enumFrom_get?] at h1
      cases hy : g.2.get? k with
      | none => rw [hy] at h1; exact Option.noConfusion h1
      | some lot =>
        rw [hy] at h1
        simp only [Option.map_some'] at h1
        cases h1
        simp only [decide_eq_false_iff_not]
        intro hcontra
        omega
    · have hmem := List.get?_mem h2
      refine planGroups_not_veryFirst (enumFrom (0 + 1) rest) item ?_ ?_
      · intro p hp
        have := enumFrom_fst_ge rest (0 + 1) p hp
        omega
      · exact hmem

theorem rows_get_ex {α : Type} (step : LoopState → α → List ScheduleEntry × LoopState)
    (items : List α) (st0 : LoopState) (k : ℕ) (r : List ScheduleEntry)
    (st2 : LoopState)
    (hr : (runSteps step st0 items).1.get? k = some r)
    (hs : (allStates step st0 items).get? k = some st2) :
    ∃ x, items.get? k = some x ∧ r = (step st2 x).1 := by
  cases hx : items.get? k with
  | none =>
    rw [List.get?_eq_none] at hx
    have hlen := runSteps_length step items st0
    rw [List.get?_eq_none.mpr (by omega)] at hr
    exact Option.noConfusion hr
  | some x =>
    have hsome := runSteps_get? step items st0 k x st2 hx hs
    exact ⟨x, rfl, (Option.some.inj (hsome.symm.trans hr)).symm⟩

theorem pyEnum_get?_ex {α : Type} (l : List α) (k : ℕ) (x : ℕ × α)
    (hx : (pyEnum l).get? k = some x) :
    ∃ a, l.get? k = some a ∧ x = (k, a) := by
  rw [pyEnum, enumFrom_get?] at hx
  cases ha : l.get? k with
  | none => rw [ha] at hx; exact Option.noConfusion hx
  | some a =>
    rw [ha] at hx
    simp only [Option.map_some'] at hx
    cases hx
    exact ⟨a, rfl, by simp⟩

/-- C3, amended: for SPT and Hybrid, before every lot except the very first a
mid-run reclean (of duration `RECLEAN_CYCLE_HOURS`, emitted at the current cursor)
is inserted exactly when the continuous-run counter has reached
`MAX_CONTINUOUS_RUN_HOURS`; for FIFO the same holds except that the **last** lot is
additionally excluded — no mid-run reclean is ever inserted before the final lot,
even when the counter is at or above the limit. -/
theorem C3_amended_reclean_rule (cfg : Config) (now : ℚ) (lots : List Lot) :
    (∀ (k : ℕ) (r : List ScheduleEntry) (st2 : LoopState), 1 ≤ k →
      (Fifo.rows cfg now lots).1.get? k = some r →
      (Fifo.states cfg now lots).get? k = some st2 →
      ((startsWithReclean r = true ↔
        (cfg.MAX_CONTINUOUS_RUN_HOURS ≤ st2.hours_since_reclean ∧
          k + 1 < lots.length)) ∧
       (startsWithReclean r = true →
        r.head? = some (recleanEntry cfg st2.time ("Line reclean"))))) ∧
    (∀ (k : ℕ) (r : List ScheduleEntry) (st2 : LoopState), 1 ≤ k →
      (Spt.rows cfg now lots).1.get? k = some r →
      (Spt.states cfg now lots).get? k = some st2 →
      ((startsWithReclean r = true ↔
        cfg.MAX_CONTINUOUS_RUN_HOURS ≤ st2.hours_since_reclean) ∧
       (startsWithReclean r = true →
        r.head? = some (recleanEntry cfg st2.time ("Line reclean"))))) ∧
    (∀ (k : ℕ) (r : List ScheduleEntry) (st2 : LoopState), 1 ≤ k →
      (Hybrid.rows cfg now lots).1.get? k = some r →
      (Hybrid.states cfg now lots).get? k = some st2 →
      ((startsWithReclean r = true ↔
        cfg.MAX_CONTINUOUS_RUN_HOURS ≤ st2.hours_since_reclean) ∧
       (startsWithReclean r = true →
        r.head? = some (recleanEntry cfg st2.time ("Line reclean"))))) := by
  refine ⟨?_, ?_, ?_⟩
  · intro k r st2 hk hr hs
    rcases rows_get_ex (Fifo.row cfg lots.length) (pyEnum lots)
      (initState cfg now) k r st2 hr hs with ⟨x, hx, hre⟩
    rcases pyEnum_get?_ex lots k x hx with ⟨lot, hlot, hxe⟩
    subst hxe
    subst hre
    have hkn : k < lots.length := by
      by_contra hcon
      rw [List.get?_eq_none.mpr (by omega)] at hlot
      exact Option.noConfusion hlot
    constructor
    · rw [fifo_row_startsWithReclean]
      simp only [decide_eq_true_eq]
      constructor
      · intro hcond
        exact ⟨hcond.1, by omega⟩
      · intro hcond
        exact ⟨hcond.1, by omega, by omega⟩
    · intro hsr
      rw [fifo_row_startsWithReclean] at hsr
      simp only [decide_eq_true_eq] at hsr
      exact fifo_row_head_reclean cfg lots.length st2 (k, lot) hsr
  · intro k r st2 hk hr hs
    rcases rows_get_ex (Spt.row cfg) (pyEnum (Spt.lots_sorted cfg lots))
      (initState cfg now) k r st2 hr hs with ⟨x, hx, hre⟩
    rcases pyEnum_get?_ex (Spt.lots_sorted cfg lots) k x hx with ⟨lot, _, hxe⟩
    subst hxe
    subst hre
    constructor
    · rw [spt_row_startsWithReclean]
      simp only [decide_eq_true_eq]
      constructor
      · intro hcond
        rcases hcond with h0 | hmax
        · omega
        · exact hmax
      · intro hmax
        exact Or.inr hmax
    · intro hsr
      rw [spt_row_startsWithReclean] at hsr
      simp only [decide_eq_true_eq] at hsr
      exact spt_row_head_reclean cfg st2 (k, lot) hsr
  · intro k r st2 hk hr hs
    rcases rows_get_ex (Hybrid.row cfg) (Hybrid.plan cfg lots)
      (initState cfg now) k r st2 hr hs with ⟨item, hitem, hre⟩
    subst hre
    have hvf := plan_tail_not_veryFirst cfg lots k item hk hitem
    constructor
    · rw [hybrid_row_startsWithReclean]
      simp only [decide_eq_true_eq]
      constructor
      · intro hcond
        rcases hcond with h0 | hmax
        · rw [hvf] at h0
          exact Bool.noConfusion h0
        · exact hmax
      · intro hmax
        exact Or.inr hmax
    · intro hsr
      rw [hybrid_row_startsWithReclean] at hsr
      simp only [decide_eq_true_eq] at hsr
      exact hybrid_row_head_reclean cfg st2 item hsr

/-- Witness for C3 at a concrete input (SPT, zero continuous-run limit, second
lot): the hypotheses are discharged by evaluation. -/
theorem C3_amended_reclean_rule_witness :
    startsWithReclean ((Spt.rows cfgW 0 lotsA).1.getD 1 []) = true ↔
      cfgW.MAX_CONTINUOUS_RUN_HOURS ≤
        ((Spt.states cfgW 0 lotsA).getD 1 default).hours_since_reclean :=
  ((C3_amended_reclean_rule cfgW 0 lotsA).2.1 1
    ((Spt.rows cfgW 0 lotsA).1.getD 1 [])
    ((Spt.states cfgW 0 lotsA).getD 1 default) (by omega)
    (by with_unfolding_all rfl) (by with_unfolding_all rfl)).1

/-- C3 as stated is false on FIFO: with a 1/2-hour continuous-run limit and three
one-hour same-type lots, the counter before the third (last) lot is 2 hours, at or
above the limit, yet FIFO inserts no reclean there (the loop's `i < len(lots) - 1`
guard excludes the last lot). -/
theorem C3_counterexample :
    ¬ (∀ (k : ℕ) (r : List ScheduleEntry) (st2 : LoopState), 1 ≤ k →
        (Fifo.rows cfgC 0 lotsC).1.get? k = some r →
        (Fifo.states cfgC 0 lotsC).get? k = some st2 →
        (startsWithReclean r = true ↔
          cfgC.MAX_CONTINUOUS_RUN_HOURS ≤ st2.hours_since_reclean)) := by
  intro h
  have h2 := h 2 ((Fifo.rows cfgC 0 lotsC).1.getD 2 [])
    ((Fifo.states cfgC 0 lotsC).getD 2 default) (by omega)
    (by with_unfolding_all rfl) (by with_unfolding_all rfl)
  have hfalse : startsWithReclean ((Fifo.rows cfgC 0 lotsC).1.getD 2 []) = false := by
    with_unfolding_all rfl
  have htrue : cfgC.MAX_CONTINUOUS_RUN_HOURS ≤
      ((Fifo.states cfgC 0 lotsC).getD 2 default).hours_since_reclean := by
    with_unfolding_all decide
  rw [h2.mpr htrue] at hfalse
  exact Bool.noConfusion hfalse

theorem runStepsE_ok {σ α : Type} (stepE : σ → α → Except PyError (List ScheduleEntry × σ))
    (step : σ → α → List ScheduleEntry × σ)
    (hstep : ∀ st x, stepE st x = Except.ok (step st x)) :
    ∀ (l : List α) (st : σ), runStepsE stepE st l = Except.ok (runSteps step st l)
  | [], _ => rfl
  | x :: xs, st => by
    rw [runStepsE, hstep st x]
    dsimp only
    rw [runStepsE_ok stepE step hstep xs]
    rfl

theorem fifo_rowE_ok (cfg : Config) (hr : cfg.FILLING_RATE_VIALS_PER_MIN ≠ 0)
    (n : ℕ) (st : LoopState) (x : ℕ × Lot) :
    Fifo.rowE cfg n st x = Except.ok (Fifo.row cfg n st x) := by
  dsimp only [Fifo.rowE, Fifo.row]
  rw [pyDiv, if_neg hr]
  rfl

theorem fifo_rowE_err (cfg : Config) (hr : cfg.FILLING_RATE_VIALS_PER_MIN = 0)
    (n : ℕ) (st : LoopState) (x : ℕ × Lot) :
    Fifo.rowE cfg n st x = Except.error PyError.zeroDivisionError := by
  dsimp only [Fifo.rowE]
  rw [pyDiv, if_pos hr]

theorem spt_rowE_ok (cfg : Config) (hr : cfg.FILLING_RATE_VIALS_PER_MIN ≠ 0)
    (st : LoopState) (x : ℕ × Lot) :
    Spt.rowE cfg st x = Except.ok (Spt.row cfg st x) := by
  dsimp only [Spt.rowE, Spt.row]
  rw [pyDiv, if_neg hr]
  rfl

theorem hybrid_rowE_ok (cfg : Config) (hr : cfg.FILLING_RATE_VIALS_PER_MIN ≠ 0)
    (st : LoopState) (item : Hybrid.PlanItem) :
    Hybrid.rowE cfg st item = Except.ok (Hybrid.row cfg st item) := by
  dsimp only [Hybrid.rowE, Hybrid.row]
  rw [pyDiv, if_neg hr]
  rfl

theorem mapE_pyDiv_ok (cfg : Config) (hr : cfg.FILLING_RATE_VIALS_PER_MIN ≠ 0) :
    ∀ (l : List Lot), ∃ vs,
      mapE (fun lot => pyDiv (lot.vials : ℚ) cfg.FILLING_RATE_VIALS_PER_MIN) l
        = Except.ok vs
  | [] => ⟨[], rfl⟩
  | x :: xs => by
    rcases mapE_pyDiv_ok cfg hr xs with ⟨vs, hvs⟩
    rw [mapE, pyDiv, if_neg hr, hvs]
    exact ⟨_, rfl⟩

theorem fifoE_spec (cfg : Config) (now : ℚ) (lots : List Lot) :
    Fifo.generate_scheduleE cfg now lots
      = if cfg.FILLING_RATE_VIALS_PER_MIN = 0 ∧ lots ≠ [] then
          Except.error PyError.zeroDivisionError
        else Except.ok (Fifo.generate_schedule cfg now lots) := by
  by_cases hz : cfg.FILLING_RATE_VIALS_PER_MIN = 0 ∧ lots ≠ []
  · rw [if_pos hz]
    rcases lots with _ | ⟨l, ls⟩
    · exact absurd rfl hz.2
    · rw [Fifo.generate_scheduleE]
      rw [show pyEnum (l :: ls) = (0, l) :: enumFrom 1 ls from rfl]
      rw [runStepsE, fifo_rowE_err cfg hz.1]
  · rw [if_neg hz]
    by_cases hr : cfg.FILLING_RATE_VIALS_PER_MIN = 0
    · have hl : lots = [] := by
        by_contra hc
        exact hz ⟨hr, hc⟩
      subst hl
      rfl
    · rw [Fifo.generate_scheduleE,
        runStepsE_ok (Fifo.rowE cfg lots.length) (Fifo.row cfg lots.length)
          (fifo_rowE_ok cfg hr lots.length) (pyEnum lots) (initState cfg now)]
      rfl

theorem sptE_spec (cfg : Config) (now : ℚ) (lots : List Lot) :
    Spt.generate_scheduleE cfg now lots
      = if cfg.FILLING_RATE_VIALS_PER_MIN = 0 ∧ lots ≠ [] then
          Except.error PyError.zeroDivisionError
        else Except.ok (Spt.generate_schedule cfg now lots) := by
  by_cases hz : cfg.FILLING_RATE_VIALS_PER_MIN = 0 ∧ lots ≠ []
  · rw [if_pos hz]
    rcases lots with _ | ⟨l, ls⟩
    · exact absurd rfl hz.2
    · rw [Spt.generate_scheduleE, mapE, pyDiv, if_pos hz.1]
  · rw [if_neg hz]
    by_cases hr : cfg.FILLING_RATE_VIALS_PER_MIN = 0
    · have hl : lots = [] := by
        by_contra hc
        exact hz ⟨hr, hc⟩
      subst hl
      rfl
    · rcases mapE_pyDiv_ok cfg hr lots with ⟨vs, hvs⟩
      rw [Spt.generate_scheduleE, hvs,
        runStepsE_ok (Spt.rowE cfg) (Spt.row cfg) (spt_rowE_ok cfg hr)
          (pyEnum (Spt.lots_sorted cfg lots)) (initState cfg now)]
      rfl

theorem hybridE_spec (cfg : Config) (now : ℚ) (lots : List Lot) :
    Hybrid.generate_scheduleE cfg now lots
      = if cfg.FILLING_RATE_VIALS_PER_MIN = 0 ∧ lots ≠ [] then
          Except.error PyError.zeroDivisionError
        else Except.ok (Hybrid.generate_schedule cfg now lots) := by
  by_cases hz : cfg.FILLING_RATE_VIALS_PER_MIN = 0 ∧ lots ≠ []
  · rw [if_pos hz]
    rcases lots with _ | ⟨l, ls⟩
    · exact absurd rfl hz.2
    · rw [Hybrid.generate_scheduleE, mapE, pyDiv, if_pos hz.1]
  · rw [if_neg hz]
    by_cases hr : cfg.FILLING_RATE_VIALS_PER_MIN = 0
    · have hl : lots = [] := by
        by_contra hc
        exact hz ⟨hr, hc⟩
      subst hl
      rfl
    · rcases mapE_pyDiv_ok cfg hr lots with ⟨vs, hvs⟩
      rw [Hybrid.generate_scheduleE, hvs,
        runStepsE_ok (Hybrid.rowE cfg) (Hybrid.row cfg) (hybrid_rowE_ok cfg hr)
          (Hybrid.plan cfg lots) (initState cfg now)]
      rfl

theorem admitFromGroup_ok (cfg : Config)
    (hr : cfg.FILLING_RATE_VIALS_PER_MIN ≠ 0) (limit : ℚ) :
    ∀ (ls : List Lot) (t : ℚ) (prev : Option Lot),
      ∃ r, Binpack.admitFromGroup cfg limit t prev ls = Except.ok r
  | [], t, prev => ⟨_, rfl⟩
  | lot :: ls, t, prev => by
    rw [Binpack.admitFromGroup, Binpack.calculate_fill_time, pyDiv, if_neg hr]
    dsimp only
    split
    · rcases admitFromGroup_ok cfg hr limit ls _ _ with ⟨r, hrec⟩
      rw [hrec]
      exact ⟨_, rfl⟩
    · rcases admitFromGroup_ok cfg hr limit ls t prev with ⟨r, hrec⟩
      rw [hrec]
      exact ⟨_, rfl⟩

theorem packWindow_ok (cfg : Config)
    (hr : cfg.FILLING_RATE_VIALS_PER_MIN ≠ 0) (limit : ℚ) :
    ∀ (grouped : List (String × List Lot)) (t : ℚ) (prev : Option Lot),
      ∃ r, Binpack.packWindow cfg limit t prev grouped = Except.ok r
  | [], _, _ => ⟨_, rfl⟩
  | (ty, ls) :: gs, t, prev => by
    rw [Binpack.packWindow]
    rcases admitFromGroup_ok cfg hr limit ls t prev with ⟨⟨adm, rem, t2, p2⟩, ha⟩
    rw [ha]
    dsimp only
    rcases packWindow_ok cfg hr limit gs t2 p2 with ⟨r, hw⟩
    rw [hw]
    exact ⟨_, rfl⟩

theorem emitWindow_ok (cfg : Config)
    (hr : cfg.FILLING_RATE_VIALS_PER_MIN ≠ 0) (sched0 : List ScheduleEntry) :
    ∀ (win : List (Lot × ℚ)) (idx : ℕ) (t : ℚ),
      ∃ r, Binpack.emitWindow cfg sched0 idx t win = Except.ok r
  | [], _, _ => ⟨_, rfl⟩
  | (lot, co) :: rest, idx, t => by
    rw [Binpack.emitWindow, Binpack.calculate_fill_time, pyDiv, if_neg hr]
    dsimp only
    rcases emitWindow_ok cfg hr sched0 rest (idx + 1) _ with ⟨r, he⟩
    rw [he]
    exact ⟨_, rfl⟩

theorem packLoop_ok (cfg : Config)
    (hr : cfg.FILLING_RATE_VIALS_PER_MIN ≠ 0) :
    ∀ (fuel : ℕ) (sched : List ScheduleEntry) (t : ℚ)
      (grouped : List (String × List Lot)),
      ∃ r, Binpack.packLoop cfg fuel sched t grouped = Except.ok r
  | fuel, sched, t, grouped => by
    rw [Binpack.packLoop.eq_def]
    dsimp only
    by_cases hh : Binpack.hasLots grouped = true
    · rw [if_pos hh]
      match fuel with
      | 0 => exact ⟨_, rfl⟩
      | fuel + 1 =>
        rcases packWindow_ok cfg hr cfg.BATCH_BINPACK_CLEAN_WINDOW_HOURS
          grouped 0 none with ⟨⟨win, grouped2⟩, hw⟩
        rw [hw]
        dsimp only
        rcases emitWindow_ok cfg hr sched win 0 t with ⟨⟨es, t2⟩, he⟩
        rw [he]
        dsimp only
        by_cases hh2 : Binpack.hasLots grouped2 = true
        · rw [if_pos hh2]
          exact packLoop_ok cfg hr fuel _ _ grouped2
        · rw [if_neg hh2]
          exact ⟨_, rfl⟩
    · rw [if_neg hh]
      exact ⟨_, rfl⟩

theorem smallRunSplit_ok (cfg : Config)
    (hr : cfg.FILLING_RATE_VIALS_PER_MIN ≠ 0) (ty : Option String) :
    ∀ (l : List ScheduleEntry),
      ∃ r, Binpack.smallRunSplit cfg ty l = Except.ok r
  | [] => ⟨_, rfl⟩
  | e :: rest => by
    rw [Binpack.smallRunSplit]
    split
    · rw [pyDiv, if_neg hr]
      dsimp only
      split
      · rcases smallRunSplit_ok cfg hr ty rest with ⟨⟨run, rest2⟩, hs⟩
        rw [hs]
        exact ⟨_, rfl⟩
      · exact ⟨_, rfl⟩
    · exact ⟨_, rfl⟩

theorem clusterLoop_ok (cfg : Config)
    (hr : cfg.FILLING_RATE_VIALS_PER_MIN ≠ 0) :
    ∀ (fuel : ℕ) (l : List ScheduleEntry),
      ∃ r, Binpack.clusterLoop cfg fuel l = Except.ok r
  | 0, _ => ⟨_, rfl⟩
  | fuel + 1, [] => ⟨_, rfl⟩
  | fuel + 1, e :: rest => by
    rw [Binpack.clusterLoop]
    split
    · rcases smallRunSplit_ok cfg hr e.lot_type rest with ⟨⟨run, rest2⟩, hs⟩
      rw [hs]
      dsimp only
      rcases clusterLoop_ok cfg hr fuel (rest2.drop run.length) with ⟨r, hc⟩
      rw [hc]
      exact ⟨_, rfl⟩
    · rcases clusterLoop_ok cfg hr fuel rest with ⟨r, hc⟩
      rw [hc]
      exact ⟨_, rfl⟩

theorem binpack_ok (cfg : Config) (now : ℚ) (lots : List Lot)
    (hr : cfg.FILLING_RATE_VIALS_PER_MIN ≠ 0) :
    ∃ r, Binpack.batch_binpack_schedule cfg now lots = Except.ok r := by
  rw [Binpack.batch_binpack_schedule]
  rcases packLoop_ok cfg hr lots.length
    [recleanEntry cfg now ("Initial line reclean")]
    (now + cfg.RECLEAN_CYCLE_HOURS * 60)
    ((Hybrid.groupByType lots).map (fun g =>
      (g.1, List.insertionSort (fun a b => -(a.vials : ℤ) ≤ -(b.vials : ℤ)) g.2)))
    with ⟨⟨sched, t⟩, hp⟩
  rw [hp]
  dsimp only
  rcases clusterLoop_ok cfg hr
    (Binpack.localSearch (Nat.factorial sched.length) sched).length
    (Binpack.localSearch (Nat.factorial sched.length) sched) with ⟨r, hc⟩
  rw [Binpack.cluster_small_lots, hc]
  exact ⟨_, rfl⟩

theorem addLotToGroups_ne_nil (gs : List (String × List Lot)) (lot : Lot) :
    Hybrid.addLotToGroups gs lot ≠ [] := by
  cases gs with
  | nil => simp [Hybrid.addLotToGroups]
  | cons g rest =>
    rcases g with ⟨t, ls⟩
    dsimp only [Hybrid.addLotToGroups]
    split <;> simp

theorem foldl_addLot_ne_nil :
    ∀ (lots : List Lot) (gs : List (String × List Lot)), gs ≠ [] →
      List.foldl Hybrid.addLotToGroups gs lots ≠ []
  | [], _, h => h
  | lot :: lots, gs, _ =>
    foldl_addLot_ne_nil lots (Hybrid.addLotToGroups gs lot)
      (addLotToGroups_ne_nil gs lot)

theorem addLotToGroups_nonempty (gs : List (String × List Lot)) (lot : Lot)
    (h : ∀ g ∈ gs, g.2 ≠ []) :
    ∀ g ∈ Hybrid.addLotToGroups gs lot, g.2 ≠ [] := by
  induction gs with
  | nil =>
    intro g hg
    simp only [Hybrid.addLotToGroups, List.mem_singleton] at hg
    subst hg
    simp
  | cons g0 rest ih =>
    rcases g0 with ⟨t, ls⟩
    intro g hg
    dsimp only [Hybrid.addLotToGroups] at hg
    by_cases he : lot.type = t
    · rw [if_pos he] at hg
      rcases List.mem_cons.mp hg with h1 | h2
      · subst h1
        simp
      · exact h g (List.mem_cons_of_mem _ h2)
    · rw [if_neg he] at hg
      rcases List.mem_cons.mp hg with h1 | h2
      · subst h1
        exact h (t, ls) (List.mem_cons_self _ _)
      · exact ih (fun g2 hg2 => h g2 (List.mem_cons_of_mem _ hg2)) g h2

theorem groupByType_nonempty :
    ∀ (lots : List Lot) (gs : List (String × List Lot)),
      (∀ g ∈ gs, g.2 ≠ []) →
      ∀ g ∈ List.foldl Hybrid.addLotToGroups gs lots, g.2 ≠ []
  | [], _, h => h
  | lot :: lots, gs, h =>
    groupByType_nonempty lots (Hybrid.addLotToGroups gs lot)
      (addLotToGroups_nonempty gs lot h)

theorem grouped_hasLots (lots : List Lot) (hl : lots ≠ []) :
    Binpack.hasLots ((Hybrid.groupByType lots).map (fun g =>
      (g.1, List.insertionSort (fun a b => -(a.vials : ℤ) ≤ -(b.vials : ℤ)) g.2)))
      = true := by
  cases hgbt : Hybrid.groupByType lots with
  | nil =>
    exfalso
    rcases lots with _ | ⟨l, ls⟩
    · exact hl rfl
    · exact foldl_addLot_ne_nil ls (Hybrid.addLotToGroups [] l)
        (addLotToGroups_ne_nil [] l) hgbt
  | cons g rest =>
    have hgne : g.2 ≠ [] := by
      apply groupByType_nonempty lots [] (by simp)
      rw [show List.foldl Hybrid.addLotToGroups [] lots
        = Hybrid.groupByType lots from rfl, hgbt]
      exact List.mem_cons_self _ _
    have hlen : (List.insertionSort
        (fun a b => -(a.vials : ℤ) ≤ -(b.vials : ℤ)) g.2).length = g.2.length :=
      List.length_insertionSort _ _
    rcases hsz : List.insertionSort
        (fun a b => -(a.vials : ℤ) ≤ -(b.vials : ℤ)) g.2 with _ | ⟨x, xs⟩
    · exfalso
      rw [hsz] at hlen
      exact hgne (List.eq_nil_of_length_eq_zero hlen.symm)
    · have hie : (List.insertionSort
          (fun a b => -(a.vials : ℤ) ≤ -(b.vials : ℤ)) g.2).isEmpty = false := by
        rw [hsz]
        rfl
      simp only [List.map_cons, Binpack.hasLots, List.any_cons, hie]
      simp

theorem packWindow_err (cfg : Config)
    (hr0 : cfg.FILLING_RATE_VIALS_PER_MIN = 0) (limit : ℚ) :
    ∀ (grouped : List (String × List Lot)) (t : ℚ) (prev : Option Lot),
      Binpack.hasLots grouped = true →
      Binpack.packWindow cfg limit t prev grouped
        = Except.error PyError.zeroDivisionError
  | [], _, _, h => by simp [Binpack.hasLots] at h
  | (ty, []) :: gs, t, prev, h => by
    have h2 : Binpack.hasLots gs = true := by
      simpa [Binpack.hasLots] using h
    rw [Binpack.packWindow]
    dsimp only [Binpack.admitFromGroup]
    rw [packWindow_err cfg hr0 limit gs t prev h2]
  | (ty, l :: ls) :: gs, t, prev, _ => by
    rw [Binpack.packWindow]
    dsimp only [Binpack.admitFromGroup]
    rw [Binpack.calculate_fill_time, pyDiv, if_pos hr0]

theorem binpack_err (cfg : Config) (now : ℚ) (lots : List Lot)
    (hr0 : cfg.FILLING_RATE_VIALS_PER_MIN = 0) (hl : lots ≠ []) :
    Binpack.batch_binpack_schedule cfg now lots
      = Except.error PyError.zeroDivisionError := by
  rw [Binpack.batch_binpack_schedule]
  have hhas := grouped_hasLots lots hl
  rcases lots with _ | ⟨l, ls⟩
  · exact absurd rfl hl
  · rw [Binpack.packLoop.eq_def]
    dsimp only
    rw [if_pos hhas]
    rw [show (l :: ls).length = ls.length + 1 from rfl]
    rw [packWindow_err cfg hr0 cfg.BATCH_BINPACK_CLEAN_WINDOW_HOURS _ 0 none hhas]

/-- C5, amended: no `ConfigurationError` (or `InvalidInput`) is ever raised — the
code has no such error path.  Each strategy fails exactly when the filling rate is
zero and the lot list is non-empty, and then with the `ZeroDivisionError` of the
fill-duration division; a negative rate (also `<= 0`) raises nothing, and a
nonzero rate never raises. -/
theorem C5_amended_failure_semantics (cfg : Config) (now : ℚ) (lots : List Lot) :
    (Fifo.generate_scheduleE cfg now lots
      = if cfg.FILLING_RATE_VIALS_PER_MIN = 0 ∧ lots ≠ [] then
          Except.error PyError.zeroDivisionError
        else Except.ok (Fifo.generate_schedule cfg now lots)) ∧
    (Spt.generate_scheduleE cfg now lots
      = if cfg.FILLING_RATE_VIALS_PER_MIN = 0 ∧ lots ≠ [] then
          Except.error PyError.zeroDivisionError
        else Except.ok (Spt.generate_schedule cfg now lots)) ∧
    (Hybrid.generate_scheduleE cfg now lots
      = if cfg.FILLING_RATE_VIALS_PER_MIN = 0 ∧ lots ≠ [] then
          Except.error PyError.zeroDivisionError
        else Except.ok (Hybrid.generate_schedule cfg now lots)) ∧
    ((cfg.FILLING_RATE_VIALS_PER_MIN = 0 ∧ lots ≠ []) →
      Binpack.batch_binpack_schedule cfg now lots
        = Except.error PyError.zeroDivisionError) ∧
    (¬ (cfg.FILLING_RATE_VIALS_PER_MIN = 0 ∧ lots ≠ []) →
      (Binpack.batch_binpack_schedule cfg now lots).isOk = true) := by
  refine ⟨fifoE_spec cfg now lots, sptE_spec cfg now lots,
    hybridE_spec cfg now lots, ?_, ?_⟩
  · intro hz
    exact binpack_err cfg now lots hz.1 hz.2
  · intro hz
    by_cases hr : cfg.FILLING_RATE_VIALS_PER_MIN = 0
    · have hl : lots = [] := by
        by_contra hc
        exact hz ⟨hr, hc⟩
      subst hl
      rfl
    · rcases binpack_ok cfg now lots hr with ⟨r, hok⟩
      rw [hok]
      rfl

/-- Witness for C5 at a concrete input: with a zero rate and one lot the bin-pack
strategy fails with a `ZeroDivisionError`. -/
theorem C5_amended_failure_semantics_witness :
    Binpack.batch_binpack_schedule cfgZero 0 lotsOne
      = Except.error PyError.zeroDivisionError :=
  (C5_amended_failure_semantics cfgZero 0 lotsOne).2.2.2.1 ⟨rfl, by decide⟩

/-- C4, amended: on an empty lot list every strategy returns a timeline holding
exactly the initial reclean; the changeover and fill metrics are 0, Total Time
(min) is `RECLEAN_CYCLE_HOURS * 60` (the initial reclean is included in the
elapsed span), and Total Reclean Time (min) is 0 for FIFO/SPT/Hybrid (which
exclude the initial reclean from that metric) but `RECLEAN_CYCLE_HOURS * 60` for
the bin-pack strategy (whose metrics sum over the whole timeline). -/
theorem C4_amended_empty_lots (cfg : Config) (now : ℚ) :
    (Fifo.generate_schedule cfg now []
      = ([recleanEntry cfg now ("Initial line reclean")],
         Metrics.mk (cfg.RECLEAN_CYCLE_HOURS * 60) 0 0 0)) ∧
    (Spt.generate_schedule cfg now []
      = ([recleanEntry cfg now ("Initial line reclean")],
         Metrics.mk (cfg.RECLEAN_CYCLE_HOURS * 60) 0 0 0)) ∧
    (Hybrid.generate_schedule cfg now []
      = ([recleanEntry cfg now ("Initial line reclean")],
         Metrics.mk (cfg.RECLEAN_CYCLE_HOURS * 60) 0 0 0)) ∧
    (Binpack.batch_binpack_schedule cfg now []
      = Except.ok ([recleanEntry cfg now ("Initial line reclean")],
         Metrics.mk (cfg.RECLEAN_CYCLE_HOURS * 60) 0
           (cfg.RECLEAN_CYCLE_HOURS * 60) 0)) := by
  have hF : Fifo.generate_schedule cfg now []
      = ([recleanEntry cfg now ("Initial line reclean")],
         Metrics.mk ((now + cfg.RECLEAN_CYCLE_HOURS * 60) - now) 0 0 0) := rfl
  have hS : Spt.generate_schedule cfg now []
      = ([recleanEntry cfg now ("Initial line reclean")],
         Metrics.mk ((now + cfg.RECLEAN_CYCLE_HOURS * 60) - now) 0 0 0) := rfl
  have hH : Hybrid.generate_schedule cfg now []
      = ([recleanEntry cfg now ("Initial line reclean")],
         Metrics.mk ((now + cfg.RECLEAN_CYCLE_HOURS * 60) - now) 0 0 0) := rfl
  have hB : Binpack.batch_binpack_schedule cfg now []
      = Except.ok ([recleanEntry cfg now ("Initial line reclean")],
         Metrics.mk ((now + cfg.RECLEAN_CYCLE_HOURS * 60) - now) 0
           (cfg.RECLEAN_CYCLE_HOURS * 60 + 0) 0) := rfl
  refine ⟨?_, ?_, ?_, ?_⟩
  · rw [hF]
    simp
  · rw [hS]
    simp
  · rw [hH]
    simp
  · rw [hB]
    simp

/-- Witness for C9 at a concrete input: two lots, so the timeline starts with the
initial reclean followed immediately by the loop's first-lot reclean. -/
theorem C9_spt_double_reclean_witness :
    ((Spt.generate_schedule cfgA 0 lotsA).1.take 2)
      = [recleanEntry cfgA 0 ("Initial line reclean"),
         recleanEntry cfgA (0 + cfgA.RECLEAN_CYCLE_HOURS * 60) ("Line reclean")] :=
  C9_spt_double_reclean cfgA 0 lotsA (by decide)

end FillingScheduler
